import Mathlib

/-!
# Chat server: wire codec, room broadcast and session handler

A shallow embedding of `chat_server_thread_answer.c` (the codec part is
identical in `chat_client_thread_answer.c`).

* Bytes are natural numbers below 256, buffers are `List Nat`.
* Machine integers are `Nat`/`Int` with explicit wrap-around.
* The operating system is an explicit `World`: for every file descriptor
  the bytes already delivered on it, the behaviour of the coming `send`
  calls, the events the coming `recv` calls will see; the allocator, the
  clock and the set of descriptors passed to `close`.
* `fprintf(stderr, ...)` logging is not modelled.
* `send`, `send_exact`, `send_packet` and `broadcast` describe calls that
  return to their caller.  A `send` that raises `SIGPIPE` terminates the
  process (`main` installs handlers for `SIGINT` and `SIGTERM` only, and
  `send` is called with flags 0); `Proc`, `send_packet_sig` and
  `broadcast_sig` describe `broadcast` with that outcome.
-/

namespace Chat

/-! ## Constants -/

def MAX_CLIENTS : Nat := 1024

def PKT_JOIN : Nat := 1
def PKT_MSG : Nat := 2
def PKT_LEAVE : Nat := 3
def PKT_NICK : Nat := 4
def PKT_SYS : Nat := 5
def PKT_PING : Nat := 6
def PKT_PONG : Nat := 7

/-! ## Byte order

`le` is the compile-time test `__BYTE_ORDER__ == __ORDER_LITTLE_ENDIAN__`.
`htons`/`htonl` are the C library's: a byte swap on a little-endian host,
the identity on a big-endian one. -/

/-- The `n` low bytes of `v`, least significant first. -/
def leBytes : Nat → Nat → List Nat
  | 0, _ => []
  | n + 1, v => v % 256 :: leBytes n (v / 256)

/-- Value of a byte string read least significant byte first. -/
def ofLE : List Nat → Nat
  | [] => 0
  | b :: bs => b + 256 * ofLE bs

/-- Byte swap of a 16-bit value: its two bytes in the opposite order. -/
def bswap16 (x : Nat) : Nat := ofLE (leBytes 2 x).reverse

/-- Byte swap of a 32-bit value: its four bytes in the opposite order. -/
def bswap32 (x : Nat) : Nat := ofLE (leBytes 4 x).reverse

def htons (le : Bool) (x : Nat) : Nat := if le then bswap16 x else x % 65536
def ntohs (le : Bool) (x : Nat) : Nat := if le then bswap16 x else x % 65536
def htonl (le : Bool) (x : Nat) : Nat := if le then bswap32 x else x % 4294967296
def ntohl (le : Bool) (x : Nat) : Nat := if le then bswap32 x else x % 4294967296

/-- Source `htonll`: on a little-endian host
`((uint64_t)htonl((uint32_t)(x & 0xffffffffULL)) << 32) | htonl((uint32_t)(x >> 32))`,
otherwise `x`. -/
def htonll (le : Bool) (x : Nat) : Nat :=
  if le then
    (((htonl le ((x &&& 0xffffffff) % 4294967296)) <<< 32) % 18446744073709551616)
      ||| htonl le ((x >>> 32) % 4294967296)
  else x % 18446744073709551616

/-- Source `ntohll`, the same expression with `ntohl`. -/
def ntohll (le : Bool) (x : Nat) : Nat :=
  if le then
    (((ntohl le ((x &&& 0xffffffff) % 4294967296)) <<< 32) % 18446744073709551616)
      ||| ntohl le ((x >>> 32) % 4294967296)
  else x % 18446744073709551616

/-! ## Memory image of integers -/

/-- Bytes of an `n`-byte integer object holding `v`, in address order. -/
def store (le : Bool) (n v : Nat) : List Nat :=
  if le then leBytes n v else (leBytes n v).reverse

/-- Value of the integer object whose bytes, in address order, are `bs`. -/
def load (le : Bool) (bs : List Nat) : Nat :=
  if le then ofLE bs else ofLE bs.reverse

/-! ## The packet header -/

/-- Source `pkt_hdr_t` (packed, 56 bytes). -/
structure pkt_hdr_t where
  ver : Nat
  type : Nat
  length : Nat
  seq : Nat
  ts_ms : Nat
  room_id : Nat
  sender : List Nat
  deriving DecidableEq, Repr

/-- Size of the header: `sizeof(pkt_hdr_t)` under `pragma pack(push, 1)`. -/
def HDR_SIZE : Nat := 56

/-- The 32 bytes `memcpy(dst, src, 32)` copies out of `src`; an object
shorter than 32 bytes is continued with zero bytes. -/
def memcpy32 (src : List Nat) : List Nat := (src ++ List.replicate 32 0).take 32

/-- Bytes of a `pkt_hdr_t` object in address order. -/
def hdr_mem (le : Bool) (h : pkt_hdr_t) : List Nat :=
  store le 2 h.ver ++ store le 2 h.type ++ store le 4 h.length ++ store le 4 h.seq ++
    store le 8 h.ts_ms ++ store le 4 h.room_id ++ memcpy32 h.sender

/-- The `pkt_hdr_t` object whose bytes, in address order, are `bs`. -/
def hdr_of_mem (le : Bool) (bs : List Nat) : pkt_hdr_t :=
  { ver := load le (bs.take 2)
    type := load le ((bs.drop 2).take 2)
    length := load le ((bs.drop 4).take 4)
    seq := load le ((bs.drop 8).take 4)
    ts_ms := load le ((bs.drop 12).take 8)
    room_id := load le ((bs.drop 20).take 4)
    sender := (bs.drop 24).take 32 }

/-! ## The operating system -/

/-- What one `send` call that returns to its caller does on a descriptor:
transfer up to `k` of the offered bytes, fail with `EINTR`, or fail with
another error.  A `send` to a connection the peer has reset raises
`SIGPIPE` and does not return; that outcome is the subject of
`send_packet_sig` below. -/
inductive SendEv where
  | accept (k : Nat)
  | eintr
  | err
  deriving DecidableEq, Repr

/-- What one `recv` call on a descriptor sees: a non-empty chunk of
arrived bytes `b :: bs`, a failure with `EINTR`, or another error.  A
stream that has run out of events is closed by the peer (`recv` gives 0). -/
inductive RecvEv where
  | data (b : Nat) (bs : List Nat)
  | eintr
  | err
  deriving DecidableEq, Repr

structure World where
  /-- Host byte order is little-endian. -/
  le : Bool
  /-- The global `g_seq`. -/
  g_seq : Nat
  /-- Readings `(tv_sec, tv_usec)` of the coming `gettimeofday` calls. -/
  clock : Nat → Nat × Nat
  /-- Number of `gettimeofday` calls made so far. -/
  ticks : Nat
  /-- Bytes transferred so far on each descriptor by `send`. -/
  out : Int → List Nat
  /-- Behaviour of the coming `send` calls on each descriptor; when the
  list is used up every further `send` transfers all it is offered. -/
  script : Int → List SendEv
  /-- What the coming `recv` calls on each descriptor will see. -/
  inp : Int → List RecvEv
  /-- Whether `malloc(n)` returns a buffer. -/
  malloc_ok : Nat → Bool
  /-- Descriptors passed to `close`, latest first. -/
  closed : List Int
  /-- The bytes that follow the string literal `"server"` (7 bytes with
  its terminator) in memory, by offset. -/
  rodata : Nat → Nat

/-- Source `now_ms`: `(uint64_t)tv.tv_sec * 1000ULL + (uint64_t)tv.tv_usec / 1000ULL`. -/
def now_ms (w : World) : Nat × World :=
  let tv := w.clock w.ticks
  ((tv.1 % 18446744073709551616 * 1000 + tv.2 % 18446744073709551616 / 1000)
      % 18446744073709551616,
    { w with ticks := w.ticks + 1 })

/-- The loop of `recv_exact` with `need = len - got` bytes still missing,
run on the events of the descriptor.  Returns `r` (1: buffer filled,
0: peer closed, -1: error), the bytes stored and the events left. -/
def recv_loop : List RecvEv → Nat → Int × List Nat × List RecvEv
  | evs, 0 => (1, [], evs)
  | [], _ + 1 => (0, [], [])
  | RecvEv.eintr :: evs, need + 1 => recv_loop evs (need + 1)
  | RecvEv.err :: evs, _ + 1 => (-1, [], evs)
  | RecvEv.data b bs :: evs, need + 1 =>
    if bs.length ≤ need then
      let r := recv_loop evs (need - bs.length)
      (r.1, b :: bs ++ r.2.1, r.2.2)
    else
      match bs.drop need with
      | [] => (1, b :: bs.take need, evs)
      | c :: cs => (1, b :: bs.take need, RecvEv.data c cs :: evs)

/-- Source `recv_exact`: returns `len` when the buffer was filled, 0 when
the peer closed, -1 on an error other than `EINTR`; with the buffer. -/
def recv_exact (w : World) (s : Int) (len : Nat) : Int × List Nat × World :=
  let r := recv_loop (w.inp s) len
  (if r.1 = 1 then (len : Int) else r.1, r.2.1,
    { w with inp := Function.update w.inp s r.2.2 })

/-- The loop of `send_exact` on the bytes not yet sent.  Returns whether
it ended without error, the bytes transferred and the behaviours left. -/
def send_loop : List SendEv → List Nat → Bool × List Nat × List SendEv
  | evs, [] => (true, [], evs)
  | [], b :: bs => (true, b :: bs, [])
  | SendEv.accept k :: evs, b :: bs =>
    let r := send_loop evs ((b :: bs).drop k)
    (r.1, (b :: bs).take k ++ r.2.1, r.2.2)
  | SendEv.eintr :: evs, b :: bs => send_loop evs (b :: bs)
  | SendEv.err :: evs, _ :: _ => (false, [], evs)

/-- Source `send_exact`: returns `len`, or -1 on an error other than `EINTR`. -/
def send_exact (w : World) (s : Int) (buf : List Nat) : Int × World :=
  let r := send_loop (w.script s) buf
  (if r.1 then (buf.length : Int) else -1,
    { w with
      out := Function.update w.out s (w.out s ++ r.2.1)
      script := Function.update w.script s r.2.2 })

/-- Source `__sync_fetch_and_add(&g_seq, 1)` on the `uint32_t` counter. -/
def fetch_and_add_g_seq (w : World) : Nat × World :=
  (w.g_seq % 4294967296, { w with g_seq := (w.g_seq + 1) % 4294967296 })

/-- The `sender` field of the zero-initialised header after
`if (sender) memcpy(h.sender, sender, 32);`. -/
def sender_bytes (sender : Option (List Nat)) : List Nat :=
  match sender with
  | some s => memcpy32 s
  | none => List.replicate 32 0

/-- Source `send_packet`.  `sender` and `payload` are `none` for a null
pointer, otherwise the bytes found at the pointer. -/
def send_packet (w : World) (sock : Int) (type : Nat) (sender : Option (List Nat))
    (room_id : Nat) (payload : Option (List Nat)) (length : Nat) : Int × World :=
  let (seq, w1) := fetch_and_add_g_seq w
  let (now, w2) := now_ms w1
  let h : pkt_hdr_t :=
    { ver := htons w.le 1
      type := htons w.le type
      length := htonl w.le length
      seq := htonl w.le seq
      ts_ms := htonll w.le now
      room_id := htonl w.le room_id
      sender := sender_bytes sender }
  let (r, w3) := send_exact w2 sock (hdr_mem w.le h)
  if r < 0 then (-1, w3)
  else
    match payload with
    | some p =>
      if length > 0 then
        let (r2, w4) := send_exact w3 sock (p.take length)
        if r2 < 0 then (-1, w4) else (0, w4)
      else (0, w3)
    | none => (0, w3)

/-- Source `recv_packet`: the return code, `*out_hdr` when it was
written, `*out_payload` (`none`: null pointer), and the world. -/
def recv_packet (w : World) (sock : Int) :
    Int × Option pkt_hdr_t × Option (List Nat) × World :=
  let (r, buf, w1) := recv_exact w sock HDR_SIZE
  if r ≤ 0 then (r, none, none, w1)
  else
    let net := hdr_of_mem w.le buf
    let h : pkt_hdr_t :=
      { ver := ntohs w.le net.ver
        type := ntohs w.le net.type
        length := ntohl w.le net.length
        seq := ntohl w.le net.seq
        ts_ms := ntohll w.le net.ts_ms
        room_id := ntohl w.le net.room_id
        sender := memcpy32 net.sender }
    if h.length > 0 then
      if w1.malloc_ok h.length then
        let (r2, pbuf, w2) := recv_exact w1 sock h.length
        if r2 ≤ 0 then (r2, some h, none, w2)
        else (1, some h, some pbuf, w2)
      else (-1, some h, none, w1)
    else (1, some h, none, w1)

/-! ## The client registry -/

/-- Source `(uint32_t)x` for an `int` value. -/
def toUInt32 (x : Int) : Nat := (x % 4294967296).toNat

/-- Source `(int)u` for a `uint32_t` value (two's complement). -/
def toInt32 (u : Nat) : Int :=
  if u % 4294967296 < 2147483648 then ((u % 4294967296 : Nat) : Int)
  else ((u % 4294967296 : Nat) : Int) - 4294967296

/-- Source `client_t`; the `tid` field is not modelled. -/
structure client_t where
  active : Int
  sock : Int
  room_id : Int
  name : List Nat
  deriving DecidableEq, Repr

/-- The server: the table `clients`, the operating system, and the slots
for which a `client_thread` was started (latest first). -/
structure Server where
  clients : Nat → client_t
  w : World
  threads : List Nat

/-- One pass of the `for` loop of `broadcast` at index `i`. -/
def broadcast_body (room_id type : Nat) (sender payload : Option (List Nat)) (len : Nat)
    (st : Server) (i : Nat) : Server :=
  let c := st.clients i
  if c.active = 0 then st
  else if toUInt32 c.room_id ≠ room_id then st
  else
    let r := send_packet st.w c.sock type sender room_id payload len
    if r.1 < 0 then
      { st with
        clients := Function.update st.clients i { c with active := 0 }
        w := { r.2 with closed := c.sock :: r.2.closed } }
    else { st with w := r.2 }

/-- Source `broadcast`: the loop over `i = 0 .. MAX_CLIENTS - 1`. -/
@[irreducible]
def broadcast (st : Server) (room_id type : Nat) (sender payload : Option (List Nat))
    (len : Nat) : Server :=
  (List.range MAX_CLIENTS).foldl (broadcast_body room_id type sender payload len) st

/-! ## Signals -/

/-- The server process while a function runs: still running in the given
state, or terminated by a signal when the state was as given. -/
inductive Proc where
  | running (st : Server)
  | killed (st : Server)

/-- The state the process is in, or was in when it was terminated. -/
def Proc.state : Proc → Server
  | Proc.running st => st
  | Proc.killed st => st

/-- Whether the process is still running. -/
def Proc.alive : Proc → Bool
  | Proc.running _ => true
  | Proc.killed _ => false

/-- Source `send_packet` in a process in which `SIGPIPE` has its default
action: `main` installs handlers for `SIGINT` and `SIGTERM` only, and
`send_exact` calls `send` with flags 0.  `pipe s` says that the peer of
descriptor `s` has reset the connection, so that `send` on `s` fails with
`EPIPE` and raises `SIGPIPE`: the process is terminated inside the first
`send`, after the header was built, and `send_packet` does not return
(`none`).  On the other descriptors `send_packet` runs as above. -/
def send_packet_sig (pipe : Int → Bool) (w : World) (sock : Int) (type : Nat)
    (sender : Option (List Nat)) (room_id : Nat) (payload : Option (List Nat)) (length : Nat) :
    Option Int × World :=
  if pipe sock then (none, (now_ms (fetch_and_add_g_seq w).2).2)
  else
    let r := send_packet w sock type sender room_id payload length
    (some r.1, r.2)

/-- One pass of the `for` loop of `broadcast` at index `i`, with signals:
nothing runs in a terminated process, and a `send_packet` that does not
return leaves the process terminated before the `if` is evaluated. -/
def broadcast_body_sig (pipe : Int → Bool) (room_id type : Nat)
    (sender payload : Option (List Nat)) (len : Nat) : Proc → Nat → Proc
  | Proc.killed st, _ => Proc.killed st
  | Proc.running st, i =>
    let c := st.clients i
    if c.active = 0 then Proc.running st
    else if toUInt32 c.room_id ≠ room_id then Proc.running st
    else
      match send_packet_sig pipe st.w c.sock type sender room_id payload len with
      | (none, w1) => Proc.killed { st with w := w1 }
      | (some r, w1) =>
        if r < 0 then
          Proc.running
            { st with
              clients := Function.update st.clients i { c with active := 0 }
              w := { w1 with closed := c.sock :: w1.closed } }
        else Proc.running { st with w := w1 }

/-- Source `broadcast` with signals: the loop over
`i = 0 .. MAX_CLIENTS - 1`. -/
@[irreducible]
def broadcast_sig (pipe : Int → Bool) (st : Server) (room_id type : Nat)
    (sender payload : Option (List Nat)) (len : Nat) : Proc :=
  (List.range MAX_CLIENTS).foldl (broadcast_body_sig pipe room_id type sender payload len)
    (Proc.running st)

/-! ## Text -/

/-- ASCII bytes of a string literal. -/
def ascii (s : String) : List Nat := s.toList.map Char.toNat

/-- Output of `%.*s` with precision 32: the bytes before the first zero
byte, 32 at most. -/
def str32 (name : List Nat) : List Nat := (name.take 32).takeWhile (fun b => b ≠ 0)

/-- Decimal digits of `n` as ASCII, most significant first, at most
`k` of them. -/
def digits10 : Nat → Nat → List Nat
  | 0, _ => []
  | k + 1, n => if n < 10 then [48 + n] else digits10 k (n / 10) ++ [48 + n % 10]

/-- Output of `%u` for a 32-bit value (10 digits at most). -/
def fmt_u (n : Nat) : List Nat := digits10 10 n

/-- Output of `%d`. -/
def fmt_d (x : Int) : List Nat :=
  if x < 0 then 45 :: fmt_u x.natAbs else fmt_u x.natAbs

/-- The 32 bytes found at the string literal `"server"`. -/
def server_lit (w : World) : List Nat :=
  ascii ("server") ++ [0] ++ (List.range 25).map w.rodata

/-- Source `syscast`, on the text `vsnprintf` formats. -/
def syscast (st : Server) (room_id : Nat) (text : List Nat) : Server :=
  let n : Int := text.length
  let buf := text.take 511 ++ [0]
  if n < 0 then st
  else
    let len : Nat := if n < 512 then n.toNat else 512
    broadcast st room_id PKT_SYS (some (server_lit st.w)) (some buf) len

/-- Text of `"*** %.*s joined room %u ***"`. -/
def fmt_joined (name : List Nat) (room : Nat) : List Nat :=
  ascii ("*** ") ++ str32 name ++ ascii (" joined room ") ++ fmt_u room ++ ascii (" ***")

/-- Text of `"*** %.*s is now %.*s ***"`. -/
def fmt_nick (oldname newname : List Nat) : List Nat :=
  ascii ("*** ") ++ str32 oldname ++ ascii (" is now ") ++ str32 newname ++ ascii (" ***")

/-- Text of `"*** %.*s left room %d ***"`. -/
def fmt_left (name : List Nat) (room : Int) : List Nat :=
  ascii ("*** ") ++ str32 name ++ ascii (" left room ") ++ fmt_d room ++ ascii (" ***")

/-- Source `remove_client` for the slot `i`. -/
def remove_client (st : Server) (i : Nat) : Server :=
  let c := st.clients i
  if c.active = 0 then st
  else
    let room := c.room_id
    let name32 := memcpy32 c.name
    let st1 : Server :=
      { st with
        clients := Function.update st.clients i { c with active := 0 }
        w := { st.w with closed := c.sock :: st.w.closed } }
    syscast st1 (toUInt32 room) (fmt_left name32 room)

/-- First lines of `client_thread`: `c->room_id = 1; memset(c->name, 0, 32);`. -/
def client_thread_init (st : Server) (i : Nat) : Server :=
  { st with
    clients := Function.update st.clients i
      { st.clients i with room_id := 1, name := List.replicate 32 0 } }

/-- How one pass of the `while (g_running)` loop of `client_thread` ends:
back at the loop test, or out of the function. -/
inductive Flow where
  | next
  | stop
  deriving DecidableEq, Repr

/-- The `switch (hdr.type)` of `client_thread` for the slot `i`, on a
packet `recv_packet` returned. -/
def dispatch (st : Server) (i : Nat) (hdr : pkt_hdr_t) (payload : Option (List Nat)) :
    Flow × Server :=
  let c := st.clients i
  if hdr.type = PKT_JOIN then
    let c1 : client_t := { c with room_id := toInt32 hdr.room_id, name := memcpy32 hdr.sender }
    let st1 : Server := { st with clients := Function.update st.clients i c1 }
    (Flow.next, syscast st1 hdr.room_id (fmt_joined c1.name hdr.room_id))
  else if hdr.type = PKT_NICK then
    let oldname := memcpy32 c.name
    let newlen : Nat := match payload with
      | some _ => hdr.length
      | none => 0
    let newname : List Nat := match payload with
      | some p =>
        if newlen ≠ 0 then
          let copy := if newlen < 32 then newlen else 32
          p.take copy ++ List.replicate (32 - copy) 0
        else List.replicate 32 0
      | none => List.replicate 32 0
    let st1 : Server := { st with clients := Function.update st.clients i { c with name := newname } }
    (Flow.next, syscast st1 (toUInt32 c.room_id) (fmt_nick oldname newname))
  else if hdr.type = PKT_MSG then
    (Flow.next, broadcast st (toUInt32 c.room_id) PKT_MSG (some c.name) payload hdr.length)
  else if hdr.type = PKT_LEAVE then
    (Flow.stop, remove_client st i)
  else if hdr.type = PKT_PING then
    let r := send_packet st.w c.sock PKT_PONG (some (server_lit st.w)) (toUInt32 c.room_id) none 0
    (Flow.next, { st with w := r.2 })
  else (Flow.next, st)

/-- One pass of the `while (g_running)` loop of `client_thread` for the
slot `i`: `recv_packet`, then the teardown or the `switch`. -/
def client_thread_body (st : Server) (i : Nat) : Flow × Server :=
  let r := recv_packet st.w (st.clients i).sock
  let st1 : Server := { st with w := r.2.2.2 }
  if r.1 ≤ 0 then (Flow.stop, remove_client st1 i)
  else
    match r.2.1 with
    | some hdr => dispatch st1 i hdr r.2.2.1
    | none => (Flow.stop, st1)

/-- The slot search of `main`: the lowest index whose slot is not active. -/
@[irreducible]
def find_free (clients : Nat → client_t) : Option Nat :=
  (List.range MAX_CLIENTS).find? (fun i => decide ((clients i).active = 0))

/-- One pass of the accept loop of `main` after `accept` returned `cs`;
`eintr` tells whether a failed `accept` set `EINTR`, `create_ok` whether
`pthread_create` returns 0. -/
def accept_step (st : Server) (cs : Int) (eintr create_ok : Bool) : Flow × Server :=
  if cs < 0 then (if eintr then Flow.next else Flow.stop, st)
  else
    match find_free st.clients with
    | none => (Flow.next, { st with w := { st.w with closed := cs :: st.w.closed } })
    | some idx =>
      let c1 : client_t :=
        { st.clients idx with active := 1, sock := cs, room_id := 1, name := List.replicate 32 0 }
      if create_ok then
        (Flow.next, { st with clients := Function.update st.clients idx c1, threads := idx :: st.threads })
      else
        (Flow.next,
          { st with
            clients := Function.update st.clients idx { c1 with active := 0 }
            w := { st.w with closed := cs :: st.w.closed } })

/-! ## Wire format and stream contents (specification side) -/

/-- Big-endian bytes of an `n`-byte value: most significant byte first. -/
def be (n v : Nat) : List Nat := (leBytes n v).reverse

/-- A packet on the wire: the header fields in network byte order, the
32 sender bytes, then the payload. -/
def wire (ver type length seq ts_ms room_id : Nat) (sender payload : List Nat) : List Nat :=
  be 2 ver ++ (be 2 type ++ (be 4 length ++ (be 4 seq ++ (be 8 ts_ms ++ (be 4 room_id ++
    (sender ++ payload))))))

/-- The bytes a stream delivers before it first fails or is closed. -/
def bytesOf : List RecvEv → List Nat
  | [] => []
  | RecvEv.data b bs :: evs => (b :: bs) ++ bytesOf evs
  | RecvEv.eintr :: evs => bytesOf evs
  | RecvEv.err :: _ => []

/-- Whether the delivery of a stream ends with an error (`true`) or with
the peer closing (`false`). -/
def endsInErr : List RecvEv → Bool
  | [] => false
  | RecvEv.data _ _ :: evs => endsInErr evs
  | RecvEv.eintr :: evs => endsInErr evs
  | RecvEv.err :: _ => true

/-- The payload bytes `send_packet` offers to `send_exact`. -/
def payload_bytes (payload : Option (List Nat)) (length : Nat) : List Nat :=
  match payload with
  | some p => if length > 0 then p.take length else []
  | none => []

/-- World `w'` differs from `w` at most in the counter, the clock position, and
the output and script of the descriptor `s`, on which `written` was sent. -/
structure Sent (w w' : World) (s : Int) (written : List Nat) : Prop where
  le : w'.le = w.le
  clock : w'.clock = w.clock
  inp : w'.inp = w.inp
  malloc_ok : w'.malloc_ok = w.malloc_ok
  closed : w'.closed = w.closed
  rodata : w'.rodata = w.rodata
  out : w'.out = Function.update w.out s (w.out s ++ written)
  script : ∀ s', s' ≠ s → w'.script s' = w.script s'

/-- The return code of `send_packet` as a function of the script of the
descriptor and of the payload length alone. -/
def send_packet_code (evs : List SendEv) (payload : Option (List Nat)) (length : Nat) : Int :=
  let r := send_loop evs (List.replicate 56 0)
  if r.1 = false then -1
  else
    match payload with
    | some p =>
      if length > 0 then
        if (send_loop r.2.2 (p.take length)).1 = false then -1 else 0
      else 0
    | none => 0

/-- The buffer at `payload` holds exactly `length` bytes; a null pointer
holds none. -/
def Holds (payload : Option (List Nat)) (length : Nat) : Prop :=
  match payload with
  | some p => p.length = length
  | none => length = 0

instance (payload : Option (List Nat)) (length : Nat) : Decidable (Holds payload length) := by
  unfold Holds; cases payload <;> infer_instance

/-- A world in which nothing has happened yet: no pending input, every
`send` transfers all it is offered, every allocation succeeds. -/
def World.quiet : World where
  le := true
  g_seq := 1
  clock := fun _ => (1700000000, 123456)
  ticks := 0
  out := fun _ => []
  script := fun _ => []
  inp := fun _ => []
  malloc_ok := fun _ => true
  closed := []
  rodata := fun _ => 0

/-- The name `"alice"` in a 32-byte field. -/
def alice32 : List Nat := ascii ("alice") ++ List.replicate 27 0

/-- A receiving world whose descriptor 5 delivers the given events. -/
def World.receiving (evs : List RecvEv) : World :=
  { World.quiet with le := false, inp := fun s => if s = 5 then evs else [] }

/-- The bytes of an `alice` MSG packet `"hi"` as `World.quiet` sends it. -/
def hi_wire : List Nat :=
  [0, 1, 0, 2, 0, 0, 0, 2, 0, 0, 0, 1, 0, 0, 1, 139, 207, 229, 104, 123, 0, 0, 0, 1] ++
    alice32 ++ [104, 105]

/-- The header of a packet that declares one payload byte, and nothing after it. -/
def truncated_stream : List RecvEv :=
  [RecvEv.data 0 ([1, 0, 2, 0, 0, 0, 1, 0, 0, 0, 9, 0, 0, 0, 0, 0, 0, 0, 0, 0, 0, 0, 1] ++
    List.replicate 32 0)]

/-- Slot `j` is a recipient of a broadcast to `room`: it is active and
its room, read as `uint32_t`, is `room`. -/
def Recipient (cs : Nat → client_t) (room : Nat) (j : Nat) : Prop :=
  (cs j).active ≠ 0 ∧ toUInt32 (cs j).room_id = room

instance (cs : Nat → client_t) (room j : Nat) : Decidable (Recipient cs room j) := by
  unfold Recipient; infer_instance

/-- What the pass of `broadcast` over the recipient slot `j` has done,
seen from the state `st` before the broadcast and a later state `st'`:
a prefix of one packet was put on the slot's descriptor; the whole packet
and the slot untouched when the send succeeds, a proper prefix and the
slot closed and deactivated when it fails. -/
def Delivered (st st' : Server) (room type : Nat) (sender payload : Option (List Nat))
    (len : Nat) (j : Nat) : Prop :=
  ∃ seq ts written rest,
    written ++ rest = wire 1 type len seq ts room (sender_bytes sender) (payload_bytes payload len) ∧
    st'.w.out (st.clients j).sock = st.w.out (st.clients j).sock ++ written ∧
    ((send_packet_code (st.w.script (st.clients j).sock) payload len = 0 ∧ rest = [] ∧
        st'.clients j = st.clients j) ∨
      (send_packet_code (st.w.script (st.clients j).sock) payload len = -1 ∧ rest ≠ [] ∧
        st'.clients j = { st.clients j with active := 0 } ∧
        (st.clients j).sock ∈ st'.w.closed))

/-- The state of `broadcast` after the passes over the slots below `n`. -/
structure BcInv (st st' : Server) (room type : Nat) (sender payload : Option (List Nat))
    (len : Nat) (n : Nat) : Prop where
  threads : st'.threads = st.threads
  le : st'.w.le = st.w.le
  clock : st'.w.clock = st.w.clock
  inp : st'.w.inp = st.w.inp
  malloc_ok : st'.w.malloc_ok = st.w.malloc_ok
  rodata : st'.w.rodata = st.w.rodata
  closed_mono : ∀ x, x ∈ st.w.closed → x ∈ st'.w.closed
  closed_from : ∀ x, x ∈ st'.w.closed → x ∈ st.w.closed ∨
    ∃ j, j < n ∧ Recipient st.clients room j ∧ (st.clients j).sock = x ∧
      send_packet_code (st.w.script x) payload len = -1
  far : ∀ j, n ≤ j → st'.clients j = st.clients j
  skipped : ∀ j, ¬ Recipient st.clients room j → st'.clients j = st.clients j
  done : ∀ j, j < n → Recipient st.clients room j → Delivered st st' room type sender payload len j
  other : ∀ s, (∀ j, j < n → Recipient st.clients room j → (st.clients j).sock ≠ s) →
    st'.w.out s = st.w.out s ∧ st'.w.script s = st.w.script s

/-- What `broadcast` never touches, whatever the descriptors: the state
after the passes over the slots below `n`. -/
structure BcFrame (st st' : Server) (room : Nat) (n : Nat) : Prop where
  threads : st'.threads = st.threads
  le : st'.w.le = st.w.le
  clock : st'.w.clock = st.w.clock
  inp : st'.w.inp = st.w.inp
  malloc_ok : st'.w.malloc_ok = st.w.malloc_ok
  rodata : st'.w.rodata = st.w.rodata
  closed_mono : ∀ x, x ∈ st.w.closed → x ∈ st'.w.closed
  clients : ∀ j, st'.clients j = st.clients j ∨
    (j < n ∧ Recipient st.clients room j ∧ st'.clients j = { st.clients j with active := 0 })
  other : ∀ s, (∀ j, j < n → Recipient st.clients room j → (st.clients j).sock ≠ s) →
    st'.w.out s = st.w.out s ∧ st'.w.script s = st.w.script s

/-- Active slots of the table hold pairwise distinct descriptors. -/
def DistinctSocks (cs : Nat → client_t) : Prop :=
  ∀ a b, a < MAX_CLIENTS → b < MAX_CLIENTS → (cs a).active ≠ 0 → (cs b).active ≠ 0 →
    (cs a).sock = (cs b).sock → a = b

/-- The connection of slot `i` delivers next the well-formed packet with
header `hdr` and payload `payload`, then `rest`; and `malloc` can provide
the payload buffer. -/
structure Arrives (st : Server) (i : Nat) (hdr : pkt_hdr_t) (payload rest : List Nat) : Prop where
  stream : bytesOf (st.w.inp (st.clients i).sock) =
    wire hdr.ver hdr.type hdr.length hdr.seq hdr.ts_ms hdr.room_id hdr.sender payload ++ rest
  ver : hdr.ver < 65536
  type : hdr.type < 65536
  length : hdr.length < 4294967296
  seq : hdr.seq < 4294967296
  ts_ms : hdr.ts_ms < 18446744073709551616
  room_id : hdr.room_id < 4294967296
  sender : hdr.sender.length = 32
  payload : payload.length = hdr.length
  malloc : 0 < hdr.length → st.w.malloc_ok hdr.length = true

/-- The payload pointer `recv_packet` hands out for a payload `p`: null
when the packet has no payload. -/
def payload_ptr (p : List Nat) : Option (List Nat) := if p.length = 0 then none else some p

/-- The state after `recv_packet` has consumed a packet from the
connection of slot `i`, leaving the events `evs`. -/
def after_recv (st : Server) (i : Nat) (evs : List RecvEv) : Server :=
  { st with w := { st.w with inp := Function.update st.w.inp (st.clients i).sock evs } }

/-- The name `"bob"` in a 32-byte field. -/
def bob32 : List Nat := ascii ("bob") ++ List.replicate 29 0

/-- The name `"carol"` in a 32-byte field. -/
def carol32 : List Nat := ascii ("carol") ++ List.replicate 27 0

/-- An `MSG` packet `"hi"` as a client sends it. -/
def hi_hdr : pkt_hdr_t :=
  { ver := 1, type := PKT_MSG, length := 2, seq := 2, ts_ms := 1700000000500, room_id := 1,
    sender := alice32 }

/-- Three connections: slots 0 and 1 in room 1, slot 2 in room 2, all
other slots free; the connection of slot 0 delivers an `MSG` packet `"hi"`. -/
def lobby : Server where
  clients := fun j =>
    if j = 0 then { active := 1, sock := 4, room_id := 1, name := alice32 }
    else if j = 1 then { active := 1, sock := 5, room_id := 1, name := bob32 }
    else if j = 2 then { active := 1, sock := 6, room_id := 2, name := carol32 }
    else { active := 0, sock := 0, room_id := 0, name := [] }
  w := { World.quiet with
    inp := fun s => if s = 4 then [RecvEv.data 0 [1, 0, 2], RecvEv.eintr,
      RecvEv.data 0 ((wire 1 PKT_MSG 2 2 1700000000500 1 alice32 [104, 105]).drop 5)] else [] }
  threads := [2, 1, 0]

/-- The slot record `c'` is `c`, or `c` with the active flag cleared. -/
def SlotKept (c c' : client_t) : Prop := c' = c ∨ c' = { c with active := 0 }

/-- Two accepted connections, slot 0 on descriptor 4 and slot 1 on
descriptor 5, in the state `main` gives a new slot (room 1, empty name).
Descriptor 4 delivers a `JOIN` to room 1 as `"alice"` and then an `MSG`
`"hi"`; descriptor 5 delivers a `JOIN` to room 1 as `"bob"`. -/
def scene_start : Server where
  clients := fun j =>
    if j = 0 then { active := 1, sock := 4, room_id := 1, name := List.replicate 32 0 }
    else if j = 1 then { active := 1, sock := 5, room_id := 1, name := List.replicate 32 0 }
    else { active := 0, sock := 0, room_id := 0, name := [] }
  w := { World.quiet with
    inp := fun s =>
      if s = 4 then
        [RecvEv.data 0 ((wire 1 PKT_JOIN 0 1 1700000000000 1 alice32 []).tail),
         RecvEv.data 0 ((wire 1 PKT_MSG 2 2 1700000000500 1 alice32 [104, 105]).tail)]
      else if s = 5 then [RecvEv.data 0 ((wire 1 PKT_JOIN 0 1 1700000000100 1 bob32 []).tail)]
      else [] }
  threads := [1, 0]

/-- The scene after the session of slot 0 has handled alice's `JOIN`
and the session of slot 1 has handled bob's `JOIN`. -/
def scene_joined : Server :=
  (client_thread_body (client_thread_body scene_start 0).2 1).2

/-- The table `lobby` with a world in which the first `send` on
descriptor 5 fails. -/
def lobby_broken : Server :=
  { lobby with
    w := { lobby.w with script := fun s => if s = 5 then [SendEv.err] else [] } }

/-- A packet of the unknown type 9 with a one-byte payload. -/
def odd_hdr : pkt_hdr_t :=
  { ver := 1, type := 9, length := 1, seq := 3, ts_ms := 1700000000900, room_id := 1,
    sender := alice32 }

/-- The table `lobby`, the connection of slot 0 delivering a packet of type 9. -/
def lobby_odd : Server :=
  { lobby with
    w := { lobby.w with
      inp := fun s =>
        if s = 4 then [RecvEv.data 0 ((wire 1 9 1 3 1700000000900 1 alice32 [7]).tail)]
        else [] } }

/-- A full table: every slot `j` active on descriptor `j + 3`. -/
def full_house : Server where
  clients := fun j => { active := 1, sock := (j : Int) + 3, room_id := 1, name := List.replicate 32 0 }
  w := World.quiet
  threads := []

/-- With `Later i st st'` the state `st'` is reached from `st` by loop passes
of sessions, among which the session of slot `i` handles no `JOIN` and no
`NICK` packet, and by passes of the accept loop made while slot `i` is
active, with a descriptor that no active slot holds. -/
inductive Later (i : Nat) : Server → Server → Prop where
  | refl (st : Server) : Later i st st
  | other {st st' : Server} (j : Nat) : Later i st st' → j ≠ i →
      Later i st (client_thread_body st' j).2
  | self {st st' : Server} : Later i st st' →
      (∀ h, (recv_packet st'.w (st'.clients i).sock).2.1 = some h →
        h.type ≠ PKT_JOIN ∧ h.type ≠ PKT_NICK) →
      Later i st (client_thread_body st' i).2
  | accepted {st st' : Server} (cs : Int) (eintr create_ok : Bool) : Later i st st' →
      (st'.clients i).active ≠ 0 →
      (∀ j, j < MAX_CLIENTS → (st'.clients j).active ≠ 0 → (st'.clients j).sock ≠ cs) →
      Later i st (accept_step st' cs eintr create_ok).2

/-- A `NICK` packet with the payload `"al"`. -/
def nick_hdr : pkt_hdr_t :=
  { ver := 1, type := PKT_NICK, length := 2, seq := 3, ts_ms := 1700000000900, room_id := 1,
    sender := alice32 }

/-- The table `lobby`, the connection of slot 0 delivering a `NICK` to
`"al"` and then an `MSG` `"hi"`. -/
def lobby_nick_msg : Server :=
  { lobby with
    w := { lobby.w with
      inp := fun s =>
        if s = 4 then
          [RecvEv.data 0 ((wire 1 PKT_NICK 2 3 1700000000900 1 alice32 [97, 108]).tail),
           RecvEv.data 0 ((wire 1 PKT_MSG 2 2 1700000000500 1 alice32 [104, 105]).tail)]
        else [] } }

/-- The name `"al"` in a 32-byte field. -/
def al32 : List Nat := [97, 108] ++ List.replicate 30 0

/-! # Properties -/

/-! ## Byte order lemmas -/

theorem leBytes_length (n v : Nat) : (leBytes n v).length = n := by
  induction n generalizing v with
  | zero => rfl
  | succ n ih => simp [leBytes, ih]

theorem leBytes_lt (n v : Nat) : ∀ b ∈ leBytes n v, b < 256 := by
  induction n generalizing v with
  | zero => simp [leBytes]
  | succ n ih =>
    intro b hb
    simp only [leBytes, List.mem_cons] at hb
    rcases hb with rfl | hb
    · exact Nat.mod_lt _ (by norm_num)
    · exact ih _ b hb

theorem ofLE_leBytes (n v : Nat) : ofLE (leBytes n v) = v % 256 ^ n := by
  induction n generalizing v with
  | zero => simp [leBytes, ofLE, Nat.mod_one]
  | succ n ih =>
    simp only [leBytes, ofLE, ih]
    rw [pow_succ, Nat.mul_comm (256 ^ n) 256, Nat.mod_mul]

theorem leBytes_ofLE (bs : List Nat) (h : ∀ b ∈ bs, b < 256) :
    leBytes bs.length (ofLE bs) = bs := by
  induction bs with
  | nil => rfl
  | cons b bs ih =>
    have hb : b < 256 := h b (List.mem_cons_self _ _)
    have ih2 := ih (fun c hc => h c (List.mem_cons_of_mem _ hc))
    simp only [List.length_cons, leBytes, ofLE]
    have h1 : (b + 256 * ofLE bs) % 256 = b := by omega
    have h2 : (b + 256 * ofLE bs) / 256 = ofLE bs := by omega
    rw [h1, h2, ih2]

theorem leBytes_mod (n v : Nat) : leBytes n (v % 256 ^ n) = leBytes n v := by
  have h := leBytes_ofLE (leBytes n v) (leBytes_lt n v)
  rw [leBytes_length, ofLE_leBytes] at h
  exact h

theorem leBytes_add (m n v : Nat) :
    leBytes (m + n) v = leBytes m v ++ leBytes n (v / 256 ^ m) := by
  induction m generalizing v with
  | zero => simp [leBytes]
  | succ m ih =>
    have : m + 1 + n = (m + n) + 1 := by omega
    rw [this]
    simp only [leBytes, List.cons_append, ih]
    rw [Nat.div_div_eq_div_mul, pow_succ, Nat.mul_comm (256 ^ m) 256]

theorem be_lt (n v : Nat) : ∀ b ∈ be n v, b < 256 := by
  intro b hb
  exact leBytes_lt n v b (List.mem_reverse.mp hb)

theorem be_length (n v : Nat) : (be n v).length = n := by
  simp [be, leBytes_length]

/-- The value `ofLE` of the reversed little-endian bytes has the big-endian bytes as its
memory image. -/
theorem leBytes_swap (n v : Nat) : leBytes n (ofLE (leBytes n v).reverse) = be n v := by
  have h := leBytes_ofLE (leBytes n v).reverse (by
    intro b hb; exact leBytes_lt n v b (List.mem_reverse.mp hb))
  rw [List.length_reverse, leBytes_length] at h
  exact h

theorem store_htons (le : Bool) (x : Nat) : store le 2 (htons le x) = be 2 x := by
  cases le
  · simp only [store, htons, be, Bool.false_eq_true, if_false]
    rw [show (65536 : Nat) = 256 ^ 2 by norm_num, leBytes_mod]
  · simp only [store, htons, bswap16, if_true]
    exact leBytes_swap 2 x

theorem store_htonl (le : Bool) (x : Nat) : store le 4 (htonl le x) = be 4 x := by
  cases le
  · simp only [store, htonl, be, Bool.false_eq_true, if_false]
    rw [show (4294967296 : Nat) = 256 ^ 4 by norm_num, leBytes_mod]
  · simp only [store, htonl, bswap32, if_true]
    exact leBytes_swap 4 x

theorem bswap32_lt (y : Nat) : bswap32 y < 4294967296 := by
  have h := ofLE_leBytes 4 (bswap32 y)
  have h2 : leBytes 4 (bswap32 y) = be 4 y := leBytes_swap 4 y
  have h3 : ofLE (be 4 y) = bswap32 y := rfl
  rw [h2, h3] at h
  have : bswap32 y % 256 ^ 4 < 256 ^ 4 := Nat.mod_lt _ (by norm_num)
  rw [← h] at this
  simpa using this

theorem htonll_eq (x : Nat) :
    htonll true x = 4294967296 * bswap32 (x % 4294967296) + bswap32 (x / 4294967296 % 4294967296) := by
  have h1 : x &&& 0xffffffff = x % 4294967296 := by
    have := Nat.and_pow_two_sub_one_eq_mod x 32
    simpa using this
  have hb := bswap32_lt
  have h2 := Nat.mul_add_lt_is_or (i := 32) (hb (x / 4294967296 % 4294967296)) (bswap32 (x % 4294967296))
  norm_num at h2
  simp only [htonll, htonl, if_true, h1, Nat.shiftLeft_eq, Nat.shiftRight_eq_div_pow]
  norm_num
  rw [Nat.mod_eq_of_lt (by have := hb (x % 4294967296); omega), Nat.mul_comm, ← h2]

theorem store_htonll (le : Bool) (x : Nat) : store le 8 (htonll le x) = be 8 x := by
  cases le
  · simp only [store, htonll, be, Bool.false_eq_true, if_false]
    rw [show (18446744073709551616 : Nat) = 256 ^ 8 by norm_num, leBytes_mod]
  · rw [htonll_eq]
    simp only [store, if_true, be]
    rw [show (8 : Nat) = 4 + 4 from rfl, leBytes_add, leBytes_add 4 4 x, List.reverse_append]
    have hb := bswap32_lt (x / 4294967296 % 4294967296)
    have e1 : (4294967296 * bswap32 (x % 4294967296) + bswap32 (x / 4294967296 % 4294967296)) / 256 ^ 4
        = bswap32 (x % 4294967296) := by
      norm_num; omega
    have e2 : leBytes 4 (4294967296 * bswap32 (x % 4294967296) + bswap32 (x / 4294967296 % 4294967296))
        = leBytes 4 (bswap32 (x / 4294967296 % 4294967296)) := by
      rw [← leBytes_mod]
      congr 1
      norm_num; omega
    rw [e1, e2]
    have e3 : ∀ y, leBytes 4 (bswap32 y) = (leBytes 4 y).reverse := fun y => leBytes_swap 4 y
    rw [e3, e3]
    have e4 : leBytes 4 (x % 4294967296) = leBytes 4 x := by
      rw [show (4294967296 : Nat) = 256 ^ 4 by norm_num, leBytes_mod]
    have e5 : leBytes 4 (x / 4294967296 % 4294967296) = leBytes 4 (x / 256 ^ 4) := by
      rw [show (4294967296 : Nat) = 256 ^ 4 by norm_num, leBytes_mod]
    rw [e4, e5]

/-! ## Decoding lemmas -/

theorem ofLE_be (n v : Nat) : ofLE (be n v).reverse = v % 256 ^ n := by
  simp only [be, List.reverse_reverse, ofLE_leBytes]

theorem ntohs_load (le : Bool) (v : Nat) : ntohs le (load le (be 2 v)) = v % 65536 := by
  cases le
  · simp only [ntohs, load, Bool.false_eq_true, if_false, ofLE_be]
    norm_num
  · simp only [ntohs, load, if_true, bswap16]
    have h := leBytes_ofLE (be 2 v) (be_lt 2 v)
    rw [be_length] at h
    rw [h, ofLE_be]
    norm_num

theorem ntohl_load (le : Bool) (v : Nat) : ntohl le (load le (be 4 v)) = v % 4294967296 := by
  cases le
  · simp only [ntohl, load, Bool.false_eq_true, if_false, ofLE_be]
    norm_num
  · simp only [ntohl, load, if_true, bswap32]
    have h := leBytes_ofLE (be 4 v) (be_lt 4 v)
    rw [be_length] at h
    rw [h, ofLE_be]
    norm_num

theorem ntohll_eq_htonll (le : Bool) (x : Nat) : ntohll le x = htonll le x := rfl

theorem htonll_lt (x : Nat) : htonll true x < 18446744073709551616 := by
  rw [htonll_eq]
  have h1 := bswap32_lt (x % 4294967296)
  have h2 := bswap32_lt (x / 4294967296 % 4294967296)
  omega

theorem ntohll_load (le : Bool) (v : Nat) :
    ntohll le (load le (be 8 v)) = v % 18446744073709551616 := by
  cases le
  · simp only [ntohll, load, Bool.false_eq_true, if_false, ofLE_be]
    norm_num
  · rw [ntohll_eq_htonll]
    simp only [load, if_true]
    have h := store_htonll true (ofLE (be 8 v))
    simp only [store, if_true, be] at h
    have h2 := leBytes_ofLE (be 8 v) (be_lt 8 v)
    rw [be_length] at h2
    have h2b : leBytes 8 (ofLE (leBytes 8 v).reverse) = (leBytes 8 v).reverse := h2
    rw [h2b, List.reverse_reverse] at h
    have h4 := htonll_lt (ofLE (leBytes 8 v).reverse)
    simp only [be]
    calc htonll true (ofLE (leBytes 8 v).reverse)
        = htonll true (ofLE (leBytes 8 v).reverse) % 256 ^ 8 :=
          (Nat.mod_eq_of_lt (by norm_num; exact h4)).symm
      _ = ofLE (leBytes 8 (htonll true (ofLE (leBytes 8 v).reverse))) :=
          (ofLE_leBytes 8 _).symm
      _ = ofLE (leBytes 8 v) := by rw [h]
      _ = v % 256 ^ 8 := ofLE_leBytes 8 v
      _ = v % 18446744073709551616 := by norm_num

theorem memcpy32_of_length (s : List Nat) (h : s.length = 32) : memcpy32 s = s := by
  unfold memcpy32
  rw [List.take_append_of_le_length (by omega), List.take_of_length_le (by omega)]

theorem memcpy32_length (s : List Nat) : (memcpy32 s).length = 32 := by
  simp [memcpy32]

theorem memcpy32_idem (s : List Nat) : memcpy32 (memcpy32 s) = memcpy32 s :=
  memcpy32_of_length _ (memcpy32_length s)

/-- The memory image of the header `send_packet` builds is the wire header. -/
theorem hdr_mem_net (le : Bool) (type length seq ts room : Nat) (sender : List Nat) :
    hdr_mem le
      { ver := htons le 1, type := htons le type, length := htonl le length,
        seq := htonl le seq, ts_ms := htonll le ts, room_id := htonl le room,
        sender := sender } = wire 1 type length seq ts room (memcpy32 sender) [] := by
  simp only [hdr_mem, wire, store_htons, store_htonl, store_htonll, List.append_assoc,
    List.append_nil]

theorem wire_length (ver type length seq ts room : Nat) (sender payload : List Nat) :
    (wire ver type length seq ts room sender payload).length = 24 + sender.length + payload.length := by
  simp only [wire, List.length_append, be_length]
  omega

theorem wire_payload (ver type length seq ts room : Nat) (sender payload : List Nat) :
    wire ver type length seq ts room sender payload =
      wire ver type length seq ts room sender [] ++ payload := by
  simp only [wire, List.append_assoc, List.append_nil]

/-- Reading the header fields back from wire bytes. -/
theorem hdr_of_wire (le : Bool) (ver type length seq ts room : Nat) (sender rest : List Nat)
    (hs : sender.length = 32) :
    let net := hdr_of_mem le (wire ver type length seq ts room sender rest)
    ntohs le net.ver = ver % 65536 ∧ ntohs le net.type = type % 65536 ∧
    ntohl le net.length = length % 4294967296 ∧ ntohl le net.seq = seq % 4294967296 ∧
    ntohll le net.ts_ms = ts % 18446744073709551616 ∧
    ntohl le net.room_id = room % 4294967296 ∧ net.sender = sender := by
  have t2 : ∀ v (r : List Nat), (be 2 v ++ r).take 2 = be 2 v := fun v r =>
    List.take_left' (be_length 2 v)
  have d2 : ∀ v (r : List Nat), (be 2 v ++ r).drop 2 = r := fun v r =>
    List.drop_left' (be_length 2 v)
  have t4 : ∀ v (r : List Nat), (be 4 v ++ r).take 4 = be 4 v := fun v r =>
    List.take_left' (be_length 4 v)
  have d4 : ∀ v (r : List Nat), (be 4 v ++ r).drop 4 = r := fun v r =>
    List.drop_left' (be_length 4 v)
  have t8 : ∀ v (r : List Nat), (be 8 v ++ r).take 8 = be 8 v := fun v r =>
    List.take_left' (be_length 8 v)
  have d8 : ∀ v (r : List Nat), (be 8 v ++ r).drop 8 = r := fun v r =>
    List.drop_left' (be_length 8 v)
  have e4 : ∀ l : List Nat, l.drop 4 = (l.drop 2).drop 2 := fun l => by rw [List.drop_drop]
  have e8 : ∀ l : List Nat, l.drop 8 = ((l.drop 2).drop 2).drop 4 := fun l => by
    rw [List.drop_drop, List.drop_drop]
  have e12 : ∀ l : List Nat, l.drop 12 = (((l.drop 2).drop 2).drop 4).drop 4 := fun l => by
    rw [List.drop_drop, List.drop_drop, List.drop_drop]
  have e20 : ∀ l : List Nat, l.drop 20 = ((((l.drop 2).drop 2).drop 4).drop 4).drop 8 := fun l => by
    rw [List.drop_drop, List.drop_drop, List.drop_drop, List.drop_drop]
  have e24 : ∀ l : List Nat, l.drop 24 = (((((l.drop 2).drop 2).drop 4).drop 4).drop 8).drop 4 :=
    fun l => by
      rw [List.drop_drop, List.drop_drop, List.drop_drop, List.drop_drop, List.drop_drop]
  simp only [hdr_of_mem, wire]
  rw [e4, e8, e12, e20, e24]
  simp only [t2, d2, t4, d4, t8, d8, ntohs_load, ntohl_load, ntohll_load]
  refine ⟨trivial, trivial, trivial, trivial, trivial, trivial, ?_⟩
  exact List.take_left' hs

/-! ## The transfer loops -/

theorem send_loop_nil (buf : List Nat) : send_loop [] buf = (true, buf, []) := by
  cases buf <;> rfl

/-- The bytes `send_exact` transfers are a prefix of the buffer; all of it
exactly when no error was met. -/
theorem send_loop_spec (evs : List SendEv) (buf : List Nat) :
    ∃ rest, (send_loop evs buf).2.1 ++ rest = buf ∧
      ((send_loop evs buf).1 = true → rest = []) ∧
      ((send_loop evs buf).1 = false → rest ≠ []) := by
  induction evs generalizing buf with
  | nil => exact ⟨[], by simp [send_loop_nil]⟩
  | cons e evs ih =>
    cases buf with
    | nil => exact ⟨[], by simp [send_loop]⟩
    | cons b bs =>
      cases e with
      | accept k =>
        obtain ⟨rest, h1, h2, h3⟩ := ih ((b :: bs).drop k)
        refine ⟨rest, ?_, ?_, ?_⟩
        · simp only [send_loop, List.append_assoc, h1, List.take_append_drop]
        · simpa only [send_loop] using h2
        · simpa only [send_loop] using h3
      | eintr => simpa only [send_loop] using ih (b :: bs)
      | err => exact ⟨b :: bs, by simp [send_loop]⟩

/-- Whether `send_exact` succeeds, and what is left of the script, depend
on the length of the buffer only. -/
theorem send_loop_congr (evs : List SendEv) (b1 b2 : List Nat) (h : b1.length = b2.length) :
    (send_loop evs b1).1 = (send_loop evs b2).1 ∧
      (send_loop evs b1).2.2 = (send_loop evs b2).2.2 := by
  induction evs generalizing b1 b2 with
  | nil => simp [send_loop_nil]
  | cons e evs ih =>
    cases b1 with
    | nil =>
      have : b2 = [] := List.length_eq_zero.mp (by simpa using h.symm)
      subst this; simp
    | cons x xs =>
      cases b2 with
      | nil => simp at h
      | cons y ys =>
        cases e with
        | accept k =>
          have := ih ((x :: xs).drop k) ((y :: ys).drop k) (by simp only [List.length_drop, h])
          simpa only [send_loop] using this
        | eintr => simpa only [send_loop] using ih (x :: xs) (y :: ys) h
        | err => simp [send_loop]

theorem bytesOf_eintr (evs : List RecvEv) : bytesOf (RecvEv.eintr :: evs) = bytesOf evs := rfl

/-- When the stream delivers at least `need` bytes, `recv_exact` fills the
buffer with the first `need` of them and leaves the rest in the stream. -/
theorem recv_loop_ok (evs : List RecvEv) (need : Nat) (h : need ≤ (bytesOf evs).length) :
    (recv_loop evs need).1 = 1 ∧ (recv_loop evs need).2.1 = (bytesOf evs).take need ∧
      bytesOf (recv_loop evs need).2.2 = (bytesOf evs).drop need ∧
      endsInErr (recv_loop evs need).2.2 = endsInErr evs := by
  induction evs generalizing need with
  | nil =>
    have : need = 0 := by simpa [bytesOf] using h
    subst this; simp [recv_loop, bytesOf]
  | cons e evs ih =>
    cases need with
    | zero => simp [recv_loop]
    | succ n =>
      cases e with
      | eintr => simpa only [recv_loop, bytesOf, endsInErr] using ih (n + 1) h
      | err => simp [bytesOf] at h
      | data b bs =>
        simp only [bytesOf, List.cons_append, List.length_cons, List.length_append] at h
        by_cases hle : bs.length ≤ n
        · obtain ⟨h1, h2, h3, h4⟩ := ih (n - bs.length) (by omega)
          simp only [recv_loop, hle, if_true, bytesOf, List.cons_append, List.take_succ_cons,
            List.drop_succ_cons, endsInErr]
          refine ⟨h1, ?_, ?_, h4⟩
          · rw [h2, List.take_append_eq_append_take, List.take_of_length_le hle]
          · rw [h3, List.drop_append_eq_append_drop, List.drop_of_length_le hle, List.nil_append]
        · have hlt : n < bs.length := by omega
          simp only [recv_loop, hle, if_false, bytesOf, List.cons_append, List.take_succ_cons,
            List.drop_succ_cons, endsInErr]
          have ht : (bs ++ bytesOf evs).take n = bs.take n := by
            rw [List.take_append_of_le_length (by omega)]
          have hd : (bs ++ bytesOf evs).drop n = bs.drop n ++ bytesOf evs := by
            rw [List.drop_append_of_le_length (by omega)]
          cases hdn : bs.drop n with
          | nil =>
            have := congrArg List.length hdn
            simp only [List.length_drop, List.length_nil] at this
            omega
          | cons c cs =>
            simp only [ht, hd, hdn, bytesOf, endsInErr, List.cons_append, and_self]

/-- When the stream delivers fewer than `need` bytes, `recv_exact` gives -1
if the delivery ends with an error and 0 if it ends with the peer closing. -/
theorem recv_loop_short (evs : List RecvEv) (need : Nat) (h : (bytesOf evs).length < need) :
    (recv_loop evs need).1 = if endsInErr evs then -1 else 0 := by
  induction evs generalizing need with
  | nil =>
    cases need with
    | zero => simp at h
    | succ n => simp [recv_loop, endsInErr]
  | cons e evs ih =>
    cases need with
    | zero => simp at h
    | succ n =>
      cases e with
      | eintr => simpa only [recv_loop, bytesOf, endsInErr] using ih (n + 1) h
      | err => simp [recv_loop, endsInErr]
      | data b bs =>
        simp only [bytesOf, List.cons_append, List.length_cons, List.length_append] at h
        have hle : bs.length ≤ n := by omega
        simp only [recv_loop, hle, if_true, endsInErr]
        exact ih (n - bs.length) (by omega)

/-! ## `send_packet` -/

theorem sender_bytes_length (s : Option (List Nat)) : (sender_bytes s).length = 32 := by
  cases s <;> simp [sender_bytes, memcpy32_length]

theorem memcpy32_sender_bytes (s : Option (List Nat)) :
    memcpy32 (sender_bytes s) = sender_bytes s :=
  memcpy32_of_length _ (sender_bytes_length s)

theorem Sent.followed_by {w w1 w2 : World} {s : Int} {a b : List Nat}
    (h1 : Sent w w1 s a) (h2 : Sent w1 w2 s b) : Sent w w2 s (a ++ b) where
  le := h2.le.trans h1.le
  clock := h2.clock.trans h1.clock
  inp := h2.inp.trans h1.inp
  malloc_ok := h2.malloc_ok.trans h1.malloc_ok
  closed := h2.closed.trans h1.closed
  rodata := h2.rodata.trans h1.rodata
  out := by
    rw [h2.out, h1.out]
    simp only [Function.update_same, Function.update_idem, List.append_assoc]
  script := fun s' hs => (h2.script s' hs).trans (h1.script s' hs)

theorem send_exact_spec (w : World) (s : Int) (buf : List Nat) :
    ∃ written rest, written ++ rest = buf ∧ Sent w (send_exact w s buf).2 s written ∧
      (send_exact w s buf).2.g_seq = w.g_seq ∧ (send_exact w s buf).2.ticks = w.ticks ∧
      (send_exact w s buf).2.script s = (send_loop (w.script s) buf).2.2 ∧
      ((send_exact w s buf).1 = -1 ↔ (send_loop (w.script s) buf).1 = false) ∧
      (0 ≤ (send_exact w s buf).1 ∧ rest = [] ∨ (send_exact w s buf).1 = -1 ∧ rest ≠ []) := by
  obtain ⟨rest, h1, h2, h3⟩ := send_loop_spec (w.script s) buf
  refine ⟨(send_loop (w.script s) buf).2.1, rest, h1, ?_, rfl, rfl, ?_, ?_, ?_⟩
  · exact ⟨rfl, rfl, rfl, rfl, rfl, rfl, rfl, fun s' hs => by
      simp only [send_exact, Function.update_noteq hs]⟩
  · simp only [send_exact, Function.update_same]
  · cases hb : (send_loop (w.script s) buf).1
    · simp [send_exact, hb]
    · simp only [send_exact, hb, if_true]
      constructor
      · intro h; omega
      · intro h; cases h
  · cases hb : (send_loop (w.script s) buf).1
    · right; simp [send_exact, hb, h3 hb]
    · left; simp [send_exact, hb, h2 hb]

/-- What `send_packet` does: it sends on `sock` a prefix of the wire
packet; the whole of it when it returns 0, a proper prefix when it
returns -1. -/
theorem send_packet_spec (w : World) (sock : Int) (type : Nat) (sender : Option (List Nat))
    (room : Nat) (payload : Option (List Nat)) (length : Nat) :
    ∃ written rest,
      written ++ rest = wire 1 type length (w.g_seq % 4294967296) (now_ms w).1 room
        (sender_bytes sender) (payload_bytes payload length) ∧
      Sent w (send_packet w sock type sender room payload length).2 sock written ∧
      (send_packet w sock type sender room payload length).2.g_seq = (w.g_seq + 1) % 4294967296 ∧
      (send_packet w sock type sender room payload length).2.ticks = w.ticks + 1 ∧
      ((send_packet w sock type sender room payload length).1 = 0 ∧ rest = [] ∨
        (send_packet w sock type sender room payload length).1 = -1 ∧ rest ≠ []) := by
  unfold send_packet
  simp only [fetch_and_add_g_seq, hdr_mem_net, memcpy32_sender_bytes]
  generalize hw2 : (now_ms { w with g_seq := (w.g_seq + 1) % 4294967296 }).2 = w2
  have hnow : (now_ms { w with g_seq := (w.g_seq + 1) % 4294967296 }).1 = (now_ms w).1 := rfl
  rw [hnow]
  generalize hW : wire 1 type length (w.g_seq % 4294967296) (now_ms w).1 room
    (sender_bytes sender) [] = H
  have h02 : Sent w w2 sock [] := by
    subst hw2
    exact ⟨rfl, rfl, rfl, rfl, rfl, rfl, by simp [now_ms], fun _ _ => rfl⟩
  have hg2 : w2.g_seq = (w.g_seq + 1) % 4294967296 := by subst hw2; rfl
  have ht2 : w2.ticks = w.ticks + 1 := by subst hw2; rfl
  rw [wire_payload, hW]
  obtain ⟨wr1, rest1, e1, s1, g1, t1, _, _, r1⟩ := send_exact_spec w2 sock H
  rcases hse : send_exact w2 sock H with ⟨r, w3⟩
  rw [hse] at s1 g1 t1 r1
  simp only at s1 g1 t1 r1 ⊢
  rcases r1 with ⟨hr, hrest⟩ | ⟨hr, hrest⟩
  · -- header sent
    subst hrest
    simp only [List.append_nil] at e1
    subst e1
    have hnot : ¬ r < 0 := by omega
    simp only [hnot, if_false]
    have s13 : Sent w w3 sock wr1 := by simpa using h02.followed_by s1
    cases payload with
    | none =>
      exact ⟨wr1, [], by simp [payload_bytes], s13, by rw [g1, hg2], by rw [t1, ht2], Or.inl ⟨rfl, rfl⟩⟩
    | some p =>
      by_cases hl : length > 0
      · simp only [hl, if_true, payload_bytes]
        obtain ⟨wr2, rest2, e2, s2, g2, t2, _, _, r2⟩ := send_exact_spec w3 sock (p.take length)
        rcases hse2 : send_exact w3 sock (p.take length) with ⟨r', w4⟩
        rw [hse2] at s2 g2 t2 r2
        simp only at s2 g2 t2 r2 ⊢
        rcases r2 with ⟨hr2, hrest2⟩ | ⟨hr2, hrest2⟩
        · have hnot2 : ¬ r' < 0 := by omega
          simp only [hnot2, if_false]
          subst hrest2
          simp only [List.append_nil] at e2
          exact ⟨wr1 ++ wr2, [], by rw [e2, List.append_nil], s13.followed_by s2,
            by rw [g2, g1, hg2], by rw [t2, t1, ht2], Or.inl ⟨trivial, rfl⟩⟩
        · have hneg2 : r' < 0 := by omega
          simp only [hneg2, if_true]
          exact ⟨wr1 ++ wr2, rest2, by rw [List.append_assoc, e2], s13.followed_by s2,
            by rw [g2, g1, hg2], by rw [t2, t1, ht2], Or.inr ⟨trivial, hrest2⟩⟩
      · simp only [hl, if_false, payload_bytes]
        exact ⟨wr1, [], by simp, s13, by rw [g1, hg2], by rw [t1, ht2], Or.inl ⟨trivial, rfl⟩⟩
  · have hneg : r < 0 := by omega
    simp only [hneg, if_true]
    refine ⟨wr1, rest1 ++ payload_bytes payload length, by rw [← List.append_assoc, e1], ?_,
      by rw [g1, hg2], by rw [t1, ht2], Or.inr ⟨trivial, ?_⟩⟩
    · simpa using h02.followed_by s1
    · intro h
      exact hrest (List.append_eq_nil.mp h).1

theorem send_packet_code_eq (w : World) (sock : Int) (type : Nat) (sender : Option (List Nat))
    (room : Nat) (payload : Option (List Nat)) (length : Nat) :
    (send_packet w sock type sender room payload length).1 =
      send_packet_code (w.script sock) payload length := by
  unfold send_packet send_packet_code
  simp only [fetch_and_add_g_seq, hdr_mem_net, memcpy32_sender_bytes]
  generalize hw2 : (now_ms { w with g_seq := (w.g_seq + 1) % 4294967296 }).2 = w2
  have hsc : w2.script sock = w.script sock := by subst hw2; rfl
  generalize hW : wire 1 type length (w.g_seq % 4294967296)
    (now_ms { w with g_seq := (w.g_seq + 1) % 4294967296 }).1 room (sender_bytes sender) [] = H
  have hlen : H.length = (List.replicate 56 0).length := by
    subst hW
    rw [wire_length, sender_bytes_length]; simp
  obtain ⟨h1, h2⟩ := send_loop_congr (w.script sock) H (List.replicate 56 0) hlen
  obtain ⟨wr1, rest1, _, _, _, _, sc1, c1, r1⟩ := send_exact_spec w2 sock H
  rw [hsc] at sc1 c1
  rw [← h1, ← h2]
  by_cases hf : (send_loop (w.script sock) H).1 = false
  · have hm : (send_exact w2 sock H).1 = -1 := c1.mpr hf
    have hneg : (send_exact w2 sock H).1 < 0 := by omega
    simp only [hneg, hf, if_true]
  · have hm : ¬ (send_exact w2 sock H).1 = -1 := fun h => hf (c1.mp h)
    have hneg : ¬ (send_exact w2 sock H).1 < 0 := by
      rcases r1 with ⟨h, _⟩ | ⟨h, _⟩
      · omega
      · exact absurd h hm
    simp only [hneg, hf, if_false]
    cases payload with
    | none => rfl
    | some p =>
      by_cases hl : length > 0
      · simp only [hl, if_true]
        obtain ⟨_, _, _, _, _, _, _, c2, r2⟩ :=
          send_exact_spec (send_exact w2 sock H).2 sock (p.take length)
        rw [sc1] at c2
        by_cases hf2 : (send_loop (send_loop (w.script sock) H).2.2 (p.take length)).1 = false
        · have hm2 := c2.mpr hf2
          have : (send_exact (send_exact w2 sock H).2 sock (p.take length)).1 < 0 := by omega
          simp [this, hf2]
        · have hm2 : ¬ (send_exact (send_exact w2 sock H).2 sock (p.take length)).1 = -1 :=
            fun h => hf2 (c2.mp h)
          have : ¬ (send_exact (send_exact w2 sock H).2 sock (p.take length)).1 < 0 := by
            rcases r2 with ⟨h, _⟩ | ⟨h, _⟩
            · omega
            · exact absurd h hm2
          simp [this, hf2]
      · simp [hl]

/-! ## `recv_packet` -/

theorem recv_exact_ok (w : World) (s : Int) (len : Nat)
    (h : len ≤ (bytesOf (w.inp s)).length) :
    ∃ evs, recv_exact w s len =
        ((len : Int), (bytesOf (w.inp s)).take len, { w with inp := Function.update w.inp s evs }) ∧
      bytesOf evs = (bytesOf (w.inp s)).drop len ∧ endsInErr evs = endsInErr (w.inp s) := by
  obtain ⟨h1, h2, h3, h4⟩ := recv_loop_ok (w.inp s) len h
  refine ⟨(recv_loop (w.inp s) len).2.2, ?_, h3, h4⟩
  simp only [recv_exact, h1, h2, if_true]

theorem recv_exact_short (w : World) (s : Int) (len : Nat)
    (h : (bytesOf (w.inp s)).length < len) :
    (recv_exact w s len).1 = if endsInErr (w.inp s) then -1 else 0 := by
  have h1 := recv_loop_short (w.inp s) len h
  simp only [recv_exact, h1]
  cases endsInErr (w.inp s) <;> simp

/-- Result of `recv_packet` on a stream that delivers a whole packet (in any
chunking, with any number of `EINTR` failures in between). -/
theorem recv_packet_ok (w : World) (sock : Int) (ver type length seq ts room : Nat)
    (sender payload rest : List Nat)
    (hin : bytesOf (w.inp sock) = wire ver type length seq ts room sender payload ++ rest)
    (hs : sender.length = 32) (hp : payload.length = length)
    (hver : ver < 65536) (htype : type < 65536) (hlength : length < 4294967296)
    (hseq : seq < 4294967296) (hts : ts < 18446744073709551616) (hroom : room < 4294967296)
    (hm : 0 < length → w.malloc_ok length = true) :
    ∃ evs, recv_packet w sock =
        (1, some { ver := ver, type := type, length := length, seq := seq, ts_ms := ts,
                   room_id := room, sender := sender },
          (if length = 0 then none else some payload),
          { w with inp := Function.update w.inp sock evs }) ∧
      bytesOf evs = rest ∧ endsInErr evs = endsInErr (w.inp sock) := by
  have hwl : (wire ver type length seq ts room sender []).length = 56 := by
    rw [wire_length, hs]; rfl
  have hin2 : bytesOf (w.inp sock) = wire ver type length seq ts room sender [] ++ (payload ++ rest) := by
    rw [hin, wire_payload, List.append_assoc]
  obtain ⟨evs1, e1, b1, z1⟩ := recv_exact_ok w sock HDR_SIZE (by
    rw [hin2, List.length_append, hwl]; simp [HDR_SIZE])
  have htake : (bytesOf (w.inp sock)).take HDR_SIZE = wire ver type length seq ts room sender [] := by
    rw [hin2]; exact List.take_left' hwl
  have hdrop : (bytesOf (w.inp sock)).drop HDR_SIZE = payload ++ rest := by
    rw [hin2]; exact List.drop_left' hwl
  rw [htake] at e1
  rw [hdrop] at b1
  obtain ⟨f1, f2, f3, f4, f5, f6, f7⟩ := hdr_of_wire w.le ver type length seq ts room sender [] hs
  rw [Nat.mod_eq_of_lt hver] at f1
  rw [Nat.mod_eq_of_lt htype] at f2
  rw [Nat.mod_eq_of_lt hlength] at f3
  rw [Nat.mod_eq_of_lt hseq] at f4
  rw [Nat.mod_eq_of_lt hts] at f5
  rw [Nat.mod_eq_of_lt hroom] at f6
  unfold recv_packet
  rw [e1]
  have hnot : ¬ ((HDR_SIZE : Nat) : Int) ≤ 0 := by simp [HDR_SIZE]
  simp only [hnot, if_false, f1, f2, f3, f4, f5, f6, f7, memcpy32_of_length sender hs]
  by_cases hl : length = 0
  · subst hl
    have : payload = [] := List.length_eq_zero.mp hp
    subst this
    simp only [gt_iff_lt, lt_self_iff_false, if_false, if_true]
    exact ⟨evs1, rfl, by simpa using b1, z1⟩
  · have hl' : length > 0 := Nat.pos_of_ne_zero hl
    have hmal : w.malloc_ok length = true := hm hl'
    simp only [hl', hl, if_true, if_false, hmal]
    set w1 : World := { w with inp := Function.update w.inp sock evs1 } with hw1
    have hinp1 : w1.inp sock = evs1 := by simp [hw1]
    obtain ⟨evs2, e2, b2, z2⟩ := recv_exact_ok w1 sock length (by
      rw [hinp1, b1, List.length_append, hp]; omega)
    rw [e2]
    have hnot2 : ¬ ((length : Nat) : Int) ≤ 0 := by omega
    simp only [hnot2, if_false]
    refine ⟨evs2, ?_, ?_, ?_⟩
    · simp only [Function.update_same, Function.update_idem, b1, List.take_left' hp]
    · rw [b2, hinp1, b1, List.drop_left' hp]
    · rw [z2, hinp1, z1]

/-! ## The codec claims -/

theorem be2_eq (v : Nat) : be 2 v = [v / 256 % 256, v % 256] := by
  simp [be, leBytes]

theorem be4_eq (v : Nat) :
    be 4 v = [v / 16777216 % 256, v / 65536 % 256, v / 256 % 256, v % 256] := by
  simp [be, leBytes, Nat.div_div_eq_div_mul]

theorem be8_eq (v : Nat) :
    be 8 v = [v / 72057594037927936 % 256, v / 281474976710656 % 256, v / 1099511627776 % 256,
      v / 4294967296 % 256, v / 16777216 % 256, v / 65536 % 256, v / 256 % 256, v % 256] := by
  simp [be, leBytes, Nat.div_div_eq_div_mul]

theorem payload_bytes_of_holds (payload : Option (List Nat)) (length : Nat)
    (h : Holds payload length) :
    (payload_bytes payload length).length = length ∧
      (∀ p, payload = some p → payload_bytes payload length = p) := by
  cases payload with
  | none =>
    have : length = 0 := h
    subst this
    exact ⟨rfl, fun p hp => by cases hp⟩
  | some p =>
    have hl : p.length = length := h
    by_cases h0 : length > 0
    · simp only [payload_bytes, h0, if_true]
      rw [List.take_of_length_le (by omega)]
      exact ⟨hl, fun q hq => by cases hq; rfl⟩
    · have : length = 0 := by omega
      subst this
      have : p = [] := List.length_eq_zero.mp hl
      subst this
      exact ⟨rfl, fun q hq => by cases hq; rfl⟩

/-- What a successful `send_packet` puts on the descriptor. -/
theorem send_packet_out (w : World) (sock : Int) (type : Nat) (sender : Option (List Nat))
    (room : Nat) (payload : Option (List Nat)) (length : Nat)
    (hok : (send_packet w sock type sender room payload length).1 = 0) :
    (send_packet w sock type sender room payload length).2.out sock =
      w.out sock ++ wire 1 type length (w.g_seq % 4294967296) (now_ms w).1 room
        (sender_bytes sender) (payload_bytes payload length) := by
  obtain ⟨wr, rest, e, s, _, _, r⟩ := send_packet_spec w sock type sender room payload length
  rcases r with ⟨_, hr⟩ | ⟨hr, _⟩
  · subst hr
    rw [List.append_nil] at e
    rw [s.out, Function.update_same, e]
  · rw [hok] at hr; cases hr

/-- C2 (wire layout): when `send_packet` is called with a 32-byte sender
and a payload buffer holding exactly `length` bytes, and it returns 0, the
bytes it has put on the socket are: version 1 in 2 bytes, type in 2 bytes,
length in 4 bytes, the sequence counter in 4 bytes, the millisecond clock
in 8 bytes, room_id in 4 bytes, each most significant byte first, then the
32 sender bytes, then the payload bytes; 56 + `length` bytes in all. -/
theorem send_packet_wire_layout (w : World) (sock : Int) (type : Nat) (sender : List Nat)
    (room_id : Nat) (payload : List Nat) (length : Nat)
    (hs : sender.length = 32) (hp : payload.length = length)
    (hok : (send_packet w sock type (some sender) room_id (some payload) length).1 = 0) :
    ∃ header,
      (send_packet w sock type (some sender) room_id (some payload) length).2.out sock =
        w.out sock ++ (header ++ payload) ∧
      header.length = 56 ∧
      header =
        [0, 1] ++ [type / 256 % 256, type % 256] ++
        [length / 16777216 % 256, length / 65536 % 256, length / 256 % 256, length % 256] ++
        [w.g_seq / 16777216 % 256, w.g_seq / 65536 % 256, w.g_seq / 256 % 256, w.g_seq % 256] ++
        [(now_ms w).1 / 72057594037927936 % 256, (now_ms w).1 / 281474976710656 % 256,
          (now_ms w).1 / 1099511627776 % 256, (now_ms w).1 / 4294967296 % 256,
          (now_ms w).1 / 16777216 % 256, (now_ms w).1 / 65536 % 256,
          (now_ms w).1 / 256 % 256, (now_ms w).1 % 256] ++
        [room_id / 16777216 % 256, room_id / 65536 % 256, room_id / 256 % 256, room_id % 256] ++
        sender := by
  have hh : Holds (some payload) length := hp
  have hpb : payload_bytes (some payload) length = payload :=
    (payload_bytes_of_holds (some payload) length hh).2 payload rfl
  have hsb : sender_bytes (some sender) = sender := memcpy32_of_length sender hs
  refine ⟨wire 1 type length (w.g_seq % 4294967296) (now_ms w).1 room_id sender [], ?_, ?_, ?_⟩
  · rw [send_packet_out w sock type (some sender) room_id (some payload) length hok, hpb, hsb,
      wire_payload]
  · rw [wire_length, hs]
    rfl
  · have hseq : be 4 (w.g_seq % 4294967296) = be 4 w.g_seq := by
      simp only [be]
      rw [show (4294967296 : Nat) = 256 ^ 4 by norm_num, leBytes_mod]
    simp only [wire, hseq, be2_eq, be4_eq, be8_eq, List.append_assoc, List.append_nil]

theorem send_packet_wire_layout_witness :
    alice32.length = 32 ∧
    (send_packet World.quiet 4 PKT_MSG (some alice32) 1 (some [104, 105]) 2).1 = 0 ∧
    (send_packet World.quiet 4 PKT_MSG (some alice32) 1 (some [104, 105]) 2).2.out 4 =
      [0, 1, 0, 2, 0, 0, 0, 2, 0, 0, 0, 1, 0, 0, 1, 139, 207, 229, 104, 123, 0, 0, 0, 1] ++
        alice32 ++ [104, 105] := by
  have h1 : alice32.length = 32 := by decide
  have h3 : (send_packet World.quiet 4 PKT_MSG (some alice32) 1 (some [104, 105]) 2).1 = 0 := by
    decide
  obtain ⟨hd, e1, _, e3⟩ :=
    send_packet_wire_layout World.quiet 4 PKT_MSG alice32 1 [104, 105] 2 h1 rfl h3
  refine ⟨h1, h3, ?_⟩
  rw [e1, e3]
  decide

/-- C1 (round trip): `send_packet` is called with a 16-bit type, a 32-bit
room_id and length, a 32-byte sender (any bytes, zero bytes included) and a
payload of exactly `length` bytes, and sends the packet in full (returns
0).  Then from any stream that delivers the bytes this call wrote (in any
chunking and with any `EINTR` failures, on a host of either byte order,
the payload allocation succeeding) `recv_packet` returns 1; the header has
ver 1, the type, length, room_id and sender of the call, seq and ts_ms are
the counter and clock values of the send; and the payload is the sent one,
byte for byte (a null pointer when `length` is 0). -/
theorem codec_round_trip (ws wr : World) (so si : Int) (type room_id length : Nat)
    (sender payload rest : List Nat)
    (htype : type < 65536) (hroom : room_id < 4294967296) (hlength : length < 4294967296)
    (hs : sender.length = 32) (hp : payload.length = length)
    (hsent : (send_packet ws so type (some sender) room_id (some payload) length).1 = 0)
    (hfeed : bytesOf (wr.inp si) =
      ((send_packet ws so type (some sender) room_id (some payload) length).2.out so).drop
        (ws.out so).length ++ rest)
    (hmalloc : 0 < length → wr.malloc_ok length = true) :
    (recv_packet wr si).1 = 1 ∧
    (recv_packet wr si).2.1 = some
      { ver := 1, type := type, length := length, seq := ws.g_seq % 4294967296,
        ts_ms := (now_ms ws).1, room_id := room_id, sender := sender } ∧
    (recv_packet wr si).2.2.1 = (if length = 0 then none else some payload) ∧
    bytesOf ((recv_packet wr si).2.2.2.inp si) = rest := by
  have hh : Holds (some payload) length := hp
  rw [send_packet_out ws so type (some sender) room_id (some payload) length hsent,
    List.drop_left] at hfeed
  have hsb : sender_bytes (some sender) = sender := memcpy32_of_length sender hs
  rw [hsb, (payload_bytes_of_holds (some payload) length hh).2 payload rfl] at hfeed
  have hts : (now_ms ws).1 < 18446744073709551616 := by
    simp only [now_ms]
    exact Nat.mod_lt _ (by norm_num)
  obtain ⟨evs, e, b, _⟩ := recv_packet_ok wr si 1 type length (ws.g_seq % 4294967296)
    (now_ms ws).1 room_id sender payload rest hfeed hs hp
    (by norm_num) htype hlength (Nat.mod_lt _ (by norm_num)) hts hroom hmalloc
  rw [e]
  refine ⟨rfl, rfl, rfl, ?_⟩
  simp only [Function.update_same]
  exact b

theorem codec_round_trip_witness :
    PKT_MSG < 65536 ∧ alice32.length = 32 ∧
    (send_packet World.quiet 4 PKT_MSG (some alice32) 1 (some [104, 105]) 2).1 = 0 ∧
    (recv_packet (World.receiving [RecvEv.data 0 (hi_wire.tail.take 9), RecvEv.eintr,
        RecvEv.data 0 (hi_wire.drop 11)]) 5).1 = 1 ∧
    (recv_packet (World.receiving [RecvEv.data 0 (hi_wire.tail.take 9), RecvEv.eintr,
        RecvEv.data 0 (hi_wire.drop 11)]) 5).2.1 = some
      { ver := 1, type := 2, length := 2, seq := 1, ts_ms := 1700000000123, room_id := 1,
        sender := alice32 } ∧
    (recv_packet (World.receiving [RecvEv.data 0 (hi_wire.tail.take 9), RecvEv.eintr,
        RecvEv.data 0 (hi_wire.drop 11)]) 5).2.2.1 = some [104, 105] := by
  have h1 : alice32.length = 32 := by decide
  have h3 : (send_packet World.quiet 4 PKT_MSG (some alice32) 1 (some [104, 105]) 2).1 = 0 := by
    decide
  have h := codec_round_trip World.quiet (World.receiving [RecvEv.data 0 (hi_wire.tail.take 9),
      RecvEv.eintr, RecvEv.data 0 (hi_wire.drop 11)]) 4 5 PKT_MSG 1 2 alice32 [104, 105] []
      (by decide) (by decide) (by decide) h1 rfl h3 (by decide) (fun _ => rfl)
  exact ⟨by decide, h1, h3, h.1, h.2.1, h.2.2.1⟩

/-- C6 as stated fails: the stream delivers a complete 56-byte header that
declares `length = 1` and is then closed by the peer before the payload
byte arrives (no error); `recv_packet` returns 0, the orderly-close
result, not -1. -/
theorem truncated_payload_close_returns_zero :
    (bytesOf truncated_stream).length = 56 ∧ endsInErr truncated_stream = false ∧
    ((recv_packet (World.receiving truncated_stream) 5).2.1.map (fun h => h.length)) = some 1 ∧
    (recv_packet (World.receiving truncated_stream) 5).1 = 0 ∧
    (recv_packet (World.receiving truncated_stream) 5).1 ≠ -1 ∧
    (recv_packet (World.receiving []) 5).1 = 0 := by
  decide

/-- C6 amended: on a stream that delivers a complete 56-byte header
declaring `n > 0` payload bytes and then fewer than `n` payload bytes,
`recv_packet` never returns 1; it returns -1 when the delivery ends with an
error (or the payload buffer cannot be allocated), and 0 when the peer
closes, which is also what it returns when the peer closes before a whole
header has arrived. -/
theorem recv_packet_truncated (w : World) (sock : Int) (ver type n seq ts room : Nat)
    (sender part : List Nat)
    (hin : bytesOf (w.inp sock) = wire ver type n seq ts room sender part)
    (hs : sender.length = 32) (hn : 0 < n) (hn2 : n < 4294967296) (hpart : part.length < n) :
    (recv_packet w sock).1 ≠ 1 ∧
    (endsInErr (w.inp sock) = true → (recv_packet w sock).1 = -1) ∧
    (w.malloc_ok n = false → (recv_packet w sock).1 = -1) ∧
    (endsInErr (w.inp sock) = false → w.malloc_ok n = true → (recv_packet w sock).1 = 0) ∧
    (∀ w0 : World, (bytesOf (w0.inp sock)).length < 56 → endsInErr (w0.inp sock) = false →
      (recv_packet w0 sock).1 = 0) := by
  have hlast : ∀ w0 : World, (bytesOf (w0.inp sock)).length < 56 →
      endsInErr (w0.inp sock) = false → (recv_packet w0 sock).1 = 0 := by
    intro w0 h1 h2
    have h := recv_exact_short w0 sock HDR_SIZE h1
    rw [h2] at h
    simp only [Bool.false_eq_true, if_false] at h
    unfold recv_packet
    simp only [h, le_refl, if_true]
  have hwl : (wire ver type n seq ts room sender []).length = 56 := by
    rw [wire_length, hs]; rfl
  have hin2 : bytesOf (w.inp sock) = wire ver type n seq ts room sender [] ++ part := by
    rw [hin, wire_payload]
  obtain ⟨evs1, e1, b1, z1⟩ := recv_exact_ok w sock HDR_SIZE (by
    rw [hin2, List.length_append, hwl]; simp [HDR_SIZE])
  have htake : (bytesOf (w.inp sock)).take HDR_SIZE = wire ver type n seq ts room sender [] := by
    rw [hin2]; exact List.take_left' hwl
  have hdrop : (bytesOf (w.inp sock)).drop HDR_SIZE = part := by
    rw [hin2]; exact List.drop_left' hwl
  rw [htake] at e1
  rw [hdrop] at b1
  obtain ⟨_, _, f3, _, _, _, _⟩ := hdr_of_wire w.le ver type n seq ts room sender [] hs
  rw [Nat.mod_eq_of_lt hn2] at f3
  have hnot : ¬ ((HDR_SIZE : Nat) : Int) ≤ 0 := by simp [HDR_SIZE]
  have key : (recv_packet w sock).1 =
      if w.malloc_ok n = true then (if endsInErr (w.inp sock) = true then -1 else 0) else -1 := by
    unfold recv_packet
    rw [e1]
    simp only [hnot, if_false, f3, gt_iff_lt, hn, if_true]
    by_cases hm : w.malloc_ok n = true
    · simp only [hm, if_true]
      set w1 : World := { w with inp := Function.update w.inp sock evs1 } with hw1
      have hinp1 : w1.inp sock = evs1 := by simp [hw1]
      have h2 := recv_exact_short w1 sock n (by rw [hinp1, b1]; exact hpart)
      rw [hinp1, z1] at h2
      rw [h2]
      cases endsInErr (w.inp sock) <;> simp
    · simp only [hm, if_false]
      simp
  refine ⟨?_, ?_, ?_, ?_, hlast⟩
  · rw [key]; split
    · split <;> decide
    · decide
  · intro h; rw [key, h]; split <;> rfl
  · intro h; rw [key, h]; rfl
  · intro h1 h2; rw [key, h1, h2]; rfl

theorem recv_packet_truncated_witness :
    (recv_packet (World.receiving (truncated_stream ++ [RecvEv.err])) 5).1 ≠ 1 ∧
    (recv_packet (World.receiving (truncated_stream ++ [RecvEv.err])) 5).1 = -1 := by
  have h := recv_packet_truncated (World.receiving (truncated_stream ++ [RecvEv.err])) 5
    1 2 1 9 0 1 (List.replicate 32 0) [] (by decide) (by decide) (by decide) (by decide)
    (by decide)
  exact ⟨h.1, h.2.1 (by decide)⟩

/-! ## The broadcast loop -/

theorem broadcast_body_skip (room type : Nat) (sender payload : Option (List Nat)) (len : Nat)
    (st : Server) (i : Nat) (h : ¬ Recipient st.clients room i) :
    broadcast_body room type sender payload len st i = st := by
  unfold broadcast_body
  by_cases ha : (st.clients i).active = 0
  · simp only [ha, if_true]
  · have hr : toUInt32 (st.clients i).room_id ≠ room := fun e => h ⟨ha, e⟩
    simp only [ha, if_false, hr, ne_eq, not_false_eq_true, if_true]

theorem broadcast_body_recipient (room type : Nat) (sender payload : Option (List Nat))
    (len : Nat) (st : Server) (i : Nat) (h : Recipient st.clients room i) :
    broadcast_body room type sender payload len st i =
      if (send_packet st.w (st.clients i).sock type sender room payload len).1 < 0 then
        { st with
          clients := Function.update st.clients i { st.clients i with active := 0 }
          w := { (send_packet st.w (st.clients i).sock type sender room payload len).2 with
            closed := (st.clients i).sock ::
              (send_packet st.w (st.clients i).sock type sender room payload len).2.closed } }
      else { st with w := (send_packet st.w (st.clients i).sock type sender room payload len).2 } := by
  unfold broadcast_body
  have ha : ¬ (st.clients i).active = 0 := h.1
  have hr : ¬ toUInt32 (st.clients i).room_id ≠ room := fun e => e h.2
  simp only [ha, if_false, hr]

theorem BcInv.at_start (st : Server) (room type : Nat) (sender payload : Option (List Nat))
    (len : Nat) : BcInv st st room type sender payload len 0 where
  threads := rfl
  le := rfl
  clock := rfl
  inp := rfl
  malloc_ok := rfl
  rodata := rfl
  closed_mono := fun _ h => h
  closed_from := fun _ h => Or.inl h
  far := fun _ _ => rfl
  skipped := fun _ _ => rfl
  done := fun j hj => absurd hj (Nat.not_lt_zero j)
  other := fun _ _ => ⟨rfl, rfl⟩

/-- One more pass of the loop keeps the invariant, when recipients hold
distinct descriptors. -/
theorem BcInv.one_pass {st st' : Server} {room type : Nat} {sender payload : Option (List Nat)}
    {len n : Nat} (inv : BcInv st st' room type sender payload len n) (N : Nat) (hn : n < N)
    (hinj : ∀ a b, a < N → b < N → Recipient st.clients room a → Recipient st.clients room b →
      (st.clients a).sock = (st.clients b).sock → a = b) :
    BcInv st (broadcast_body room type sender payload len st' n) room type sender payload len
      (n + 1) := by
  have hcn : st'.clients n = st.clients n := inv.far n (Nat.le_refl n)
  by_cases hrec : Recipient st.clients room n
  · -- slot `n` is a recipient
    have hrec' : Recipient st'.clients room n := by
      unfold Recipient; rw [hcn]; exact hrec
    have hfresh : ∀ j, j < n → Recipient st.clients room j →
        (st.clients j).sock ≠ (st.clients n).sock := by
      intro j hj hrj e
      have := hinj j n (by omega) hn hrj hrec e
      omega
    obtain ⟨ho, hsc⟩ := inv.other (st.clients n).sock hfresh
    rw [broadcast_body_recipient room type sender payload len st' n hrec', hcn]
    obtain ⟨wr, rest, e, snt, _, _, r⟩ :=
      send_packet_spec st'.w (st.clients n).sock type sender room payload len
    have hcode := send_packet_code_eq st'.w (st.clients n).sock type sender room payload len
    rw [hsc] at hcode
    generalize hsp : send_packet st'.w (st.clients n).sock type sender room payload len = sp
      at snt r hcode
    -- facts that hold in both outcomes
    have hout_n : sp.2.out (st.clients n).sock = st.w.out (st.clients n).sock ++ wr := by
      rw [snt.out, Function.update_same, ho]
    have hout_ne : ∀ s, s ≠ (st.clients n).sock → sp.2.out s = st'.w.out s := by
      intro s hs; rw [snt.out, Function.update_noteq hs]
    have hother : ∀ s, (∀ j, j < n + 1 → Recipient st.clients room j → (st.clients j).sock ≠ s) →
        sp.2.out s = st.w.out s ∧ sp.2.script s = st.w.script s := by
      intro s hs
      have hsn : s ≠ (st.clients n).sock := fun e => hs n (Nat.lt_succ_self n) hrec e.symm
      obtain ⟨h1, h2⟩ := inv.other s (fun j hj hrj => hs j (Nat.lt_succ_of_lt hj) hrj)
      exact ⟨by rw [hout_ne s hsn, h1], by rw [snt.script s hsn, h2]⟩
    have hdone_old : ∀ (st2 : Server), st2.w.out = sp.2.out →
        (∀ j, j ≠ n → st2.clients j = st'.clients j) →
        (∀ x, x ∈ st'.w.closed → x ∈ st2.w.closed) →
        ∀ j, j < n → Recipient st.clients room j →
          Delivered st st2 room type sender payload len j := by
      intro st2 h2o h2c h2x j hj hrj
      obtain ⟨seq, ts, written, rst, e1, e2, e3⟩ := inv.done j hj hrj
      have hne : (st.clients j).sock ≠ (st.clients n).sock := hfresh j hj hrj
      refine ⟨seq, ts, written, rst, e1, ?_, ?_⟩
      · rw [h2o, hout_ne _ hne, e2]
      · rcases e3 with ⟨a, b, c⟩ | ⟨a, b, c, d⟩
        · exact Or.inl ⟨a, b, by rw [h2c j (by omega), c]⟩
        · exact Or.inr ⟨a, b, by rw [h2c j (by omega), c], h2x _ d⟩
    by_cases hneg : sp.1 < 0
    · -- the send failed
      have hm1 : sp.1 = -1 ∧ rest ≠ [] := by
        rcases r with ⟨h, _⟩ | h
        · omega
        · exact h
      simp only [hneg, if_true]
      refine
        { threads := inv.threads, le := snt.le.trans inv.le, clock := snt.clock.trans inv.clock,
          inp := snt.inp.trans inv.inp, malloc_ok := snt.malloc_ok.trans inv.malloc_ok,
          rodata := snt.rodata.trans inv.rodata, closed_mono := ?_, closed_from := ?_,
          far := ?_, skipped := ?_, done := ?_, other := hother }
      · intro x hx
        exact List.mem_cons_of_mem _ (by rw [snt.closed]; exact inv.closed_mono x hx)
      · intro x hx
        rcases List.mem_cons.mp hx with rfl | hx
        · exact Or.inr ⟨n, Nat.lt_succ_self n, hrec, rfl, by rw [← hcode]; exact hm1.1⟩
        · rw [snt.closed] at hx
          rcases inv.closed_from x hx with h | ⟨j, hj, h⟩
          · exact Or.inl h
          · exact Or.inr ⟨j, Nat.lt_succ_of_lt hj, h⟩
      · intro j hj
        have : j ≠ n := by omega
        simp only [Function.update_noteq this]
        exact inv.far j (by omega)
      · intro j hj
        have : j ≠ n := fun e => hj (e ▸ hrec)
        simp only [Function.update_noteq this]
        exact inv.skipped j hj
      · intro j hj hrj
        by_cases hjn : j = n
        · subst hjn
          exact ⟨_, _, wr, rest, e, hout_n, Or.inr ⟨by rw [← hcode]; exact hm1.1, hm1.2,
            by simp only [Function.update_same], List.mem_cons_self _ _⟩⟩
        · exact hdone_old _ rfl (fun k hk => by simp only [Function.update_noteq hk])
            (fun x hx => List.mem_cons_of_mem _ (by rw [snt.closed]; exact hx)) j (by omega) hrj
    · -- the send succeeded
      have h0 : sp.1 = 0 ∧ rest = [] := by
        rcases r with h | ⟨h, _⟩
        · exact h
        · omega
      simp only [hneg, if_false]
      refine
        { threads := inv.threads, le := snt.le.trans inv.le, clock := snt.clock.trans inv.clock,
          inp := snt.inp.trans inv.inp, malloc_ok := snt.malloc_ok.trans inv.malloc_ok,
          rodata := snt.rodata.trans inv.rodata, closed_mono := ?_, closed_from := ?_,
          far := ?_, skipped := inv.skipped, done := ?_, other := hother }
      · intro x hx
        show x ∈ sp.2.closed
        rw [snt.closed]; exact inv.closed_mono x hx
      · intro x hx
        have hx' : x ∈ sp.2.closed := hx
        rw [snt.closed] at hx'
        rcases inv.closed_from x hx' with h | ⟨j, hj, h⟩
        · exact Or.inl h
        · exact Or.inr ⟨j, Nat.lt_succ_of_lt hj, h⟩
      · intro j hj
        exact inv.far j (by omega)
      · intro j hj hrj
        by_cases hjn : j = n
        · subst hjn
          exact ⟨_, _, wr, rest, e, hout_n, Or.inl ⟨by rw [← hcode]; exact h0.1, h0.2, hcn⟩⟩
        · exact hdone_old { st' with w := sp.2 } rfl (fun k _ => rfl)
            (fun x hx => by show x ∈ sp.2.closed; rw [snt.closed]; exact hx) j (by omega) hrj
  · -- slot `n` is skipped
    have hrec' : ¬ Recipient st'.clients room n := by
      unfold Recipient; rw [hcn]; exact hrec
    rw [broadcast_body_skip room type sender payload len st' n hrec']
    exact
      { threads := inv.threads, le := inv.le, clock := inv.clock, inp := inv.inp,
        malloc_ok := inv.malloc_ok, rodata := inv.rodata, closed_mono := inv.closed_mono,
        closed_from := fun x hx => by
          rcases inv.closed_from x hx with h | ⟨j, hj, h⟩
          · exact Or.inl h
          · exact Or.inr ⟨j, Nat.lt_succ_of_lt hj, h⟩
        far := fun j hj => inv.far j (by omega)
        skipped := inv.skipped
        done := fun j hj hrj => by
          have : j ≠ n := fun e => hrec (e ▸ hrj)
          exact inv.done j (by omega) hrj
        other := fun s hs => inv.other s (fun j hj hrj => hs j (Nat.lt_succ_of_lt hj) hrj) }

theorem BcInv.passes (st : Server) (room type : Nat) (sender payload : Option (List Nat))
    (len : Nat) (N : Nat)
    (hinj : ∀ a b, a < N → b < N → Recipient st.clients room a → Recipient st.clients room b →
      (st.clients a).sock = (st.clients b).sock → a = b) (n : Nat) (hn : n ≤ N) :
    BcInv st ((List.range n).foldl (broadcast_body room type sender payload len) st)
      room type sender payload len n := by
  induction n with
  | zero => exact BcInv.at_start st room type sender payload len
  | succ n ih =>
    rw [List.range_succ, List.foldl_append]
    exact (ih (by omega)).one_pass N (by omega) hinj

theorem BcFrame.frame_start (st : Server) (room : Nat) : BcFrame st st room 0 where
  threads := rfl
  le := rfl
  clock := rfl
  inp := rfl
  malloc_ok := rfl
  rodata := rfl
  closed_mono := fun _ h => h
  clients := fun _ => Or.inl rfl
  other := fun _ _ => ⟨rfl, rfl⟩

theorem BcFrame.frame_pass {st st' : Server} {room n : Nat} (fr : BcFrame st st' room n)
    (type : Nat) (sender payload : Option (List Nat)) (len : Nat) :
    BcFrame st (broadcast_body room type sender payload len st' n) room (n + 1) := by
  have hcn : st'.clients n = st.clients n := by
    rcases fr.clients n with h | ⟨h, _⟩
    · exact h
    · omega
  have hcl : ∀ j, st'.clients j = st.clients j ∨
      (j < n + 1 ∧ Recipient st.clients room j ∧ st'.clients j = { st.clients j with active := 0 }) := by
    intro j
    rcases fr.clients j with h | ⟨h1, h2, h3⟩
    · exact Or.inl h
    · exact Or.inr ⟨by omega, h2, h3⟩
  by_cases hrec : Recipient st.clients room n
  · have hrec' : Recipient st'.clients room n := by
      unfold Recipient; rw [hcn]; exact hrec
    rw [broadcast_body_recipient room type sender payload len st' n hrec', hcn]
    obtain ⟨wr, rest, e, snt, _, _, r⟩ :=
      send_packet_spec st'.w (st.clients n).sock type sender room payload len
    generalize send_packet st'.w (st.clients n).sock type sender room payload len = sp at snt r
    have hother : ∀ s, (∀ j, j < n + 1 → Recipient st.clients room j → (st.clients j).sock ≠ s) →
        sp.2.out s = st.w.out s ∧ sp.2.script s = st.w.script s := by
      intro s hs
      have hsn : s ≠ (st.clients n).sock := fun e => hs n (Nat.lt_succ_self n) hrec e.symm
      obtain ⟨h1, h2⟩ := fr.other s (fun j hj hrj => hs j (Nat.lt_succ_of_lt hj) hrj)
      exact ⟨by rw [snt.out, Function.update_noteq hsn, h1], by rw [snt.script s hsn, h2]⟩
    by_cases hneg : sp.1 < 0
    · simp only [hneg, if_true]
      refine
        { threads := fr.threads, le := snt.le.trans fr.le, clock := snt.clock.trans fr.clock,
          inp := snt.inp.trans fr.inp, malloc_ok := snt.malloc_ok.trans fr.malloc_ok,
          rodata := snt.rodata.trans fr.rodata, closed_mono := ?_, clients := ?_,
          other := hother }
      · intro x hx
        exact List.mem_cons_of_mem _ (by rw [snt.closed]; exact fr.closed_mono x hx)
      · intro j
        by_cases hjn : j = n
        · subst hjn
          exact Or.inr ⟨Nat.lt_succ_self _, hrec, by simp only [Function.update_same]⟩
        · simp only [Function.update_noteq hjn]
          exact hcl j
    · simp only [hneg, if_false]
      exact
        { threads := fr.threads, le := snt.le.trans fr.le, clock := snt.clock.trans fr.clock,
          inp := snt.inp.trans fr.inp, malloc_ok := snt.malloc_ok.trans fr.malloc_ok,
          rodata := snt.rodata.trans fr.rodata,
          closed_mono := fun x hx => by
            show x ∈ sp.2.closed
            rw [snt.closed]; exact fr.closed_mono x hx
          clients := hcl, other := hother }
  · have hrec' : ¬ Recipient st'.clients room n := by
      unfold Recipient; rw [hcn]; exact hrec
    rw [broadcast_body_skip room type sender payload len st' n hrec']
    exact
      { threads := fr.threads, le := fr.le, clock := fr.clock, inp := fr.inp,
        malloc_ok := fr.malloc_ok, rodata := fr.rodata, closed_mono := fr.closed_mono,
        clients := hcl
        other := fun s hs => fr.other s (fun j hj hrj => hs j (Nat.lt_succ_of_lt hj) hrj) }

theorem BcFrame.frame_passes (st : Server) (room type : Nat) (sender payload : Option (List Nat))
    (len : Nat) (n : Nat) :
    BcFrame st ((List.range n).foldl (broadcast_body room type sender payload len) st) room n := by
  induction n with
  | zero => exact BcFrame.frame_start st room
  | succ n ih =>
    rw [List.range_succ, List.foldl_append]
    exact ih.frame_pass type sender payload len

/-- The frame of a whole `broadcast`. -/
theorem broadcast_frame (st : Server) (room type : Nat) (sender payload : Option (List Nat))
    (len : Nat) : BcFrame st (broadcast st room type sender payload len) room MAX_CLIENTS := by
  unfold broadcast
  exact BcFrame.frame_passes st room type sender payload len MAX_CLIENTS

/-! ## The session handler -/

theorem body_on_packet (st : Server) (i : Nat) (hdr : pkt_hdr_t) (p rest : List Nat)
    (h : Arrives st i hdr p rest) :
    ∃ evs, bytesOf evs = rest ∧
      recv_packet st.w (st.clients i).sock =
        (1, some hdr, payload_ptr p, (after_recv st i evs).w) ∧
      client_thread_body st i = dispatch (after_recv st i evs) i hdr (payload_ptr p) := by
  obtain ⟨evs, e, b, _⟩ := recv_packet_ok st.w (st.clients i).sock hdr.ver hdr.type hdr.length
    hdr.seq hdr.ts_ms hdr.room_id hdr.sender p rest h.stream h.sender h.payload h.ver h.type
    h.length h.seq h.ts_ms h.room_id h.malloc
  have hp : (if hdr.length = 0 then none else some p) = payload_ptr p := by
    unfold payload_ptr; rw [h.payload]
  rw [hp] at e
  refine ⟨evs, b, e, ?_⟩
  unfold client_thread_body
  rw [e]
  simp only [after_recv]
  rfl

theorem digits10_length (k n : Nat) : (digits10 k n).length ≤ k := by
  induction k generalizing n with
  | zero => simp [digits10]
  | succ k ih =>
    unfold digits10
    split
    · simp
    · have := ih (n / 10)
      simp only [List.length_append, List.length_singleton]
      omega

theorem str32_length (name : List Nat) : (str32 name).length ≤ 32 := by
  unfold str32
  calc ((name.take 32).takeWhile _).length ≤ (name.take 32).length :=
        (List.takeWhile_sublist _).length_le
    _ ≤ 32 := by simp

theorem fmt_u_length (n : Nat) : (fmt_u n).length ≤ 10 := digits10_length 10 n

theorem fmt_d_length (x : Int) : (fmt_d x).length ≤ 11 := by
  unfold fmt_d
  have := fmt_u_length x.natAbs
  split <;> simp <;> omega

theorem fmt_nick_length (a b : List Nat) : (fmt_nick a b).length < 512 := by
  have h1 := str32_length a
  have h2 := str32_length b
  have e1 : (ascii ("*** ")).length = 4 := by decide
  have e2 : (ascii (" is now ")).length = 8 := by decide
  have e3 : (ascii (" ***")).length = 4 := by decide
  simp only [fmt_nick, List.length_append, e1, e2, e3]
  omega

theorem fmt_left_length (name : List Nat) (room : Int) : (fmt_left name room).length < 512 := by
  have h1 := str32_length name
  have h2 := fmt_d_length room
  have e1 : (ascii ("*** ")).length = 4 := by decide
  have e2 : (ascii (" left room ")).length = 11 := by decide
  have e3 : (ascii (" ***")).length = 4 := by decide
  simp only [fmt_left, List.length_append, e1, e2, e3]
  omega

theorem server_lit_length (w : World) : (server_lit w).length = 32 := by
  have e1 : (ascii ("server")).length = 6 := by decide
  simp [server_lit, e1]

/-- A `syscast` is one `broadcast` of a `PKT_SYS` packet whose payload is the text. -/
theorem syscast_eq (st : Server) (room : Nat) (text : List Nat) (h : text.length < 512) :
    syscast st room text =
      broadcast st room PKT_SYS (some (server_lit st.w)) (some (text ++ [0])) text.length ∧
    sender_bytes (some (server_lit st.w)) = server_lit st.w ∧
    payload_bytes (some (text ++ [0])) text.length = text := by
  refine ⟨?_, memcpy32_of_length _ (server_lit_length st.w), ?_⟩
  · unfold syscast
    have h1 : ¬ ((text.length : Nat) : Int) < 0 := by omega
    have h2 : ((text.length : Nat) : Int) < 512 := by omega
    simp only [h1, if_false, h2, if_true, Int.toNat_ofNat]
    rw [List.take_of_length_le (by omega)]
  · unfold payload_bytes
    by_cases h0 : text.length > 0
    · simp only [h0, if_true]
      rw [List.take_append_of_le_length (Nat.le_refl _), List.take_length]
    · have : text = [] := List.length_eq_zero.mp (by omega)
      subst this
      simp

/-! ## Outcome of a broadcast -/

theorem broadcast_inv (st : Server) (room type : Nat) (sender payload : Option (List Nat))
    (len : Nat) (hd : DistinctSocks st.clients) :
    BcInv st (broadcast st room type sender payload len) room type sender payload len
      MAX_CLIENTS := by
  unfold broadcast
  exact BcInv.passes st room type sender payload len MAX_CLIENTS
    (fun a b ha hb hra hrb e => hd a b ha hb hra.1 hrb.1 e) MAX_CLIENTS (Nat.le_refl _)

/-- The return code of `send_packet` does not depend on whether an empty
payload is passed as a null pointer. -/
theorem send_packet_code_ptr (evs : List SendEv) (p : List Nat) :
    send_packet_code evs (payload_ptr p) p.length = send_packet_code evs (some p) p.length := by
  unfold payload_ptr
  by_cases h : p.length = 0
  · simp [h, send_packet_code]
  · simp [h]

theorem payload_bytes_ptr (p : List Nat) : payload_bytes (payload_ptr p) p.length = p := by
  unfold payload_ptr payload_bytes
  by_cases h : p.length = 0
  · have : p = [] := List.length_eq_zero.mp h
    subst this; simp
  · have h2 : p.length > 0 := Nat.pos_of_ne_zero h
    simp [h, h2]

/-- What each recipient's descriptor holds after a broadcast: the old
bytes and a prefix of one packet; the whole packet, and the slot
untouched, when the send on it succeeds; the slot deactivated and its
descriptor closed when the send fails. -/
theorem broadcast_recipient (st : Server) (room type : Nat) (sender payload : Option (List Nat))
    (len : Nat) (hd : DistinctSocks st.clients) (j : Nat) (hj : j < MAX_CLIENTS)
    (hr : Recipient st.clients room j) :
    ∃ seq ts written,
      (broadcast st room type sender payload len).w.out (st.clients j).sock =
        st.w.out (st.clients j).sock ++ written ∧
      written <+: wire 1 type len seq ts room (sender_bytes sender) (payload_bytes payload len) ∧
      ((send_packet st.w (st.clients j).sock type sender room payload len).1 = 0 →
        written = wire 1 type len seq ts room (sender_bytes sender) (payload_bytes payload len) ∧
        (broadcast st room type sender payload len).clients j = st.clients j) ∧
      ((send_packet st.w (st.clients j).sock type sender room payload len).1 < 0 →
        (broadcast st room type sender payload len).clients j =
          { st.clients j with active := 0 } ∧
        (st.clients j).sock ∈ (broadcast st room type sender payload len).w.closed) := by
  obtain ⟨seq, ts, written, rest, e1, e2, e3⟩ :=
    (broadcast_inv st room type sender payload len hd).done j hj hr
  rw [← send_packet_code_eq st.w (st.clients j).sock type sender room payload len] at e3
  refine ⟨seq, ts, written, e2, ⟨rest, e1⟩, ?_, ?_⟩
  · intro h0
    rcases e3 with ⟨_, b, c⟩ | ⟨a, _⟩
    · subst b
      rw [List.append_nil] at e1
      exact ⟨e1, c⟩
    · rw [h0] at a; cases a
  · intro hneg
    rcases e3 with ⟨a, _⟩ | ⟨_, _, c, d⟩
    · rw [a] at hneg; cases hneg
    · exact ⟨c, d⟩

/-- A broadcast puts nothing on a descriptor that is not the descriptor
of a recipient slot. -/
theorem broadcast_nonrecipient (st : Server) (room type : Nat)
    (sender payload : Option (List Nat)) (len : Nat) (s : Int)
    (hs : ∀ j, j < MAX_CLIENTS → Recipient st.clients room j → (st.clients j).sock ≠ s) :
    (broadcast st room type sender payload len).w.out s = st.w.out s :=
  ((broadcast_frame st room type sender payload len).other s hs).1

/-- A broadcast puts nothing on the descriptor of an active slot of another room. -/
theorem broadcast_other_room (st : Server) (room type : Nat)
    (sender payload : Option (List Nat)) (len : Nat) (hd : DistinctSocks st.clients)
    (j : Nat) (hj : j < MAX_CLIENTS) (ha : (st.clients j).active ≠ 0)
    (hr : toUInt32 (st.clients j).room_id ≠ room) :
    (broadcast st room type sender payload len).w.out (st.clients j).sock =
      st.w.out (st.clients j).sock := by
  apply broadcast_nonrecipient
  intro k hk hrk e
  have := hd k j hk hj hrk.1 ha e
  subst this
  exact hr hrk.2

theorem dispatch_msg (st : Server) (i : Nat) (hdr : pkt_hdr_t) (payload : Option (List Nat))
    (h : hdr.type = PKT_MSG) :
    dispatch st i hdr payload =
      (Flow.next, broadcast st (toUInt32 (st.clients i).room_id) PKT_MSG
        (some (st.clients i).name) payload hdr.length) := by
  unfold dispatch
  have h1 : ¬ hdr.type = PKT_JOIN := by rw [h]; decide
  have h2 : ¬ hdr.type = PKT_NICK := by rw [h]; decide
  dsimp only
  rw [if_neg h1, if_neg h2, if_pos h]

/-- One loop pass of the session of slot `i` on an arriving `MSG` packet
is one `broadcast` to the slot's room under the slot's name. -/
theorem body_msg (st : Server) (i : Nat) (hdr : pkt_hdr_t) (p rest : List Nat)
    (harr : Arrives st i hdr p rest) (hmsg : hdr.type = PKT_MSG) :
    ∃ evs, bytesOf evs = rest ∧
      client_thread_body st i =
        (Flow.next, broadcast (after_recv st i evs) (toUInt32 (st.clients i).room_id) PKT_MSG
          (some (st.clients i).name) (payload_ptr p) p.length) := by
  obtain ⟨evs, b, _, e⟩ := body_on_packet st i hdr p rest harr
  refine ⟨evs, b, ?_⟩
  rw [e, dispatch_msg _ i hdr _ hmsg, harr.payload]
  rfl

theorem send_packet_ok_of_script_nil (w : World) (s : Int) (type : Nat)
    (sender : Option (List Nat)) (room : Nat) (payload : Option (List Nat)) (len : Nat)
    (h : w.script s = []) : (send_packet w s type sender room payload len).1 = 0 := by
  rw [send_packet_code_eq, h]
  unfold send_packet_code
  simp only [send_loop_nil]
  cases payload <;> simp

theorem lobby_distinct : DistinctSocks lobby.clients := by
  intro a b _ _ ha hb e
  simp only [lobby] at ha hb e
  split_ifs at ha hb e <;> simp_all

/-- C3 (room isolation): the session of slot `i`, whose room is `R` and
name `N`, handles an arriving `MSG` packet with payload `p`; active slots
hold distinct descriptors and the send to every recipient succeeds.  Then
every active slot of room `R` gets exactly one packet on its descriptor,
an `MSG` packet of room `R`; no active slot of another room gets anything;
no other descriptor at all gets anything; the table is unchanged; and the
loop pass of this broadcast over a slot that is inactive or in another
room does nothing at all. -/
theorem msg_room_isolation (st : Server) (i : Nat) (hdr : pkt_hdr_t) (p rest : List Nat)
    (R : Nat) (N : List Nat)
    (harr : Arrives st i hdr p rest) (hmsg : hdr.type = PKT_MSG)
    (hR : toUInt32 (st.clients i).room_id = R) (hN : (st.clients i).name = N)
    (hd : DistinctSocks st.clients)
    (hok : ∀ j, j < MAX_CLIENTS → Recipient st.clients R j →
      (send_packet st.w (st.clients j).sock PKT_MSG (some N) R (some p) p.length).1 = 0) :
    (∀ j, j < MAX_CLIENTS → (st.clients j).active ≠ 0 → toUInt32 (st.clients j).room_id = R →
      ∃ seq ts, (client_thread_body st i).2.w.out (st.clients j).sock =
        st.w.out (st.clients j).sock ++ wire 1 PKT_MSG hdr.length seq ts R (memcpy32 N) p) ∧
    (∀ j, j < MAX_CLIENTS → (st.clients j).active ≠ 0 → toUInt32 (st.clients j).room_id ≠ R →
      (client_thread_body st i).2.w.out (st.clients j).sock = st.w.out (st.clients j).sock) ∧
    (∀ s, (∀ j, j < MAX_CLIENTS → (st.clients j).active ≠ 0 →
        toUInt32 (st.clients j).room_id = R → (st.clients j).sock ≠ s) →
      (client_thread_body st i).2.w.out s = st.w.out s) ∧
    (∀ j, (client_thread_body st i).2.clients j = st.clients j) ∧
    (∀ (st' : Server) (j : Nat),
      (st'.clients j).active = 0 ∨ toUInt32 (st'.clients j).room_id ≠ R →
      broadcast_body R PKT_MSG (some N) (if p.length = 0 then none else some p) hdr.length st' j
        = st') := by
  obtain ⟨evs, _, e⟩ := body_msg st i hdr p rest harr hmsg
  rw [e, hR, hN]
  have hd1 : DistinctSocks (after_recv st i evs).clients := hd
  have hok1 : ∀ j, j < MAX_CLIENTS → Recipient st.clients R j →
      (send_packet (after_recv st i evs).w (st.clients j).sock PKT_MSG (some N) R
        (payload_ptr p) p.length).1 = 0 := by
    intro j hj hr
    have h := hok j hj hr
    rw [send_packet_code_eq] at h ⊢
    rw [send_packet_code_ptr]
    exact h
  refine ⟨?_, ?_, ?_, ?_, ?_⟩
  rotate_right
  · intro st' j hskip
    apply broadcast_body_skip
    intro hrec
    rcases hskip with h | h
    · exact hrec.1 h
    · exact h hrec.2
  · intro j hj ha hr
    obtain ⟨seq, ts, written, e1, _, e3, _⟩ := broadcast_recipient (after_recv st i evs) R
      PKT_MSG (some N) (payload_ptr p) p.length hd1 j hj ⟨ha, hr⟩
    obtain ⟨e4, _⟩ := e3 (hok1 j hj ⟨ha, hr⟩)
    rw [payload_bytes_ptr, harr.payload] at e4
    rw [e4] at e1
    exact ⟨seq, ts, e1⟩
  · intro j hj ha hr
    exact broadcast_other_room (after_recv st i evs) R PKT_MSG (some N) (payload_ptr p)
      p.length hd1 j hj ha hr
  · intro s hs
    exact broadcast_nonrecipient (after_recv st i evs) R PKT_MSG (some N) (payload_ptr p)
      p.length s (fun j hj hr => hs j hj hr.1 hr.2)
  · intro j
    by_cases hr : Recipient st.clients R j
    · rcases (broadcast_frame (after_recv st i evs) R PKT_MSG (some N) (payload_ptr p)
        p.length).clients j with h | ⟨hj, _, _⟩
      · exact h
      · obtain ⟨_, _, _, _, _, e3, _⟩ := broadcast_recipient (after_recv st i evs) R
          PKT_MSG (some N) (payload_ptr p) p.length hd1 j hj hr
        exact (e3 (hok1 j hj hr)).2
    · exact (broadcast_inv (after_recv st i evs) R PKT_MSG (some N) (payload_ptr p)
        p.length hd1).skipped j hr

theorem msg_room_isolation_witness :
    Arrives lobby 0 hi_hdr [104, 105] [] ∧ DistinctSocks lobby.clients ∧
    (∃ seq ts, (client_thread_body lobby 0).2.w.out 5 =
      lobby.w.out 5 ++ wire 1 PKT_MSG 2 seq ts 1 alice32 [104, 105]) ∧
    (client_thread_body lobby 0).2.w.out 6 = lobby.w.out 6 := by
  have harr : Arrives lobby 0 hi_hdr [104, 105] [] :=
    ⟨by decide, by decide, by decide, by decide, by decide, by decide, by decide, by decide,
      by decide, fun _ => rfl⟩
  have h := msg_room_isolation lobby 0 hi_hdr [104, 105] [] 1 alice32 harr rfl rfl rfl
    lobby_distinct (fun j _ _ => send_packet_ok_of_script_nil _ _ _ _ _ _ _ rfl)
  exact ⟨harr, lobby_distinct, h.1 1 (by decide) (by decide) (by decide),
    h.2.1 2 (by decide) (by decide) (by decide)⟩

/-! ## What the handler leaves alone -/

theorem SlotKept.refl (c : client_t) : SlotKept c c := Or.inl rfl

theorem SlotKept.trans {a b c : client_t} (h1 : SlotKept a b) (h2 : SlotKept b c) :
    SlotKept a c := by
  rcases h1 with rfl | rfl <;> rcases h2 with rfl | rfl
  · exact Or.inl rfl
  · exact Or.inr rfl
  · exact Or.inr rfl
  · exact Or.inr rfl

theorem SlotKept.sock {a b : client_t} (h : SlotKept a b) : b.sock = a.sock := by
  rcases h with rfl | rfl <;> rfl

theorem SlotKept.room_id {a b : client_t} (h : SlotKept a b) : b.room_id = a.room_id := by
  rcases h with rfl | rfl <;> rfl

theorem SlotKept.name {a b : client_t} (h : SlotKept a b) : b.name = a.name := by
  rcases h with rfl | rfl <;> rfl

theorem SlotKept.active {a b : client_t} (h : SlotKept a b) (h0 : b.active ≠ 0) :
    a.active ≠ 0 := by
  rcases h with rfl | rfl
  · exact h0
  · exact absurd rfl h0

theorem broadcast_kept (st : Server) (room type : Nat) (sender payload : Option (List Nat))
    (len : Nat) (j : Nat) :
    SlotKept (st.clients j) ((broadcast st room type sender payload len).clients j) := by
  rcases (broadcast_frame st room type sender payload len).clients j with h | ⟨_, _, h⟩
  · exact Or.inl h
  · exact Or.inr h

/-- A `syscast` always is one `broadcast` of a `PKT_SYS` packet. -/
theorem syscast_is_broadcast (st : Server) (room : Nat) (text : List Nat) :
    ∃ payload len, syscast st room text =
      broadcast st room PKT_SYS (some (server_lit st.w)) payload len := by
  unfold syscast
  have h1 : ¬ ((text.length : Nat) : Int) < 0 := by omega
  simp only [h1, if_false]
  exact ⟨_, _, rfl⟩

theorem syscast_frame (st : Server) (room : Nat) (text : List Nat) :
    BcFrame st (syscast st room text) room MAX_CLIENTS := by
  obtain ⟨payload, len, e⟩ := syscast_is_broadcast st room text
  rw [e]
  exact broadcast_frame st room PKT_SYS _ payload len

theorem syscast_kept (st : Server) (room : Nat) (text : List Nat) (j : Nat) :
    SlotKept (st.clients j) ((syscast st room text).clients j) := by
  obtain ⟨payload, len, e⟩ := syscast_is_broadcast st room text
  rw [e]
  exact broadcast_kept st room PKT_SYS _ payload len j

theorem remove_client_kept (st : Server) (i j : Nat) :
    SlotKept (st.clients j) ((remove_client st i).clients j) ∧
      (remove_client st i).threads = st.threads := by
  unfold remove_client
  by_cases ha : (st.clients i).active = 0
  · simp only [ha, if_true]
    exact ⟨Or.inl rfl, trivial⟩
  · simp only [ha, if_false]
    constructor
    · refine SlotKept.trans ?_ (syscast_kept _ _ _ j)
      by_cases hj : j = i
      · subst hj
        exact Or.inr (by simp only [Function.update_same])
      · exact Or.inl (by simp only [Function.update_noteq hj])
    · exact (syscast_frame _ _ _).threads

theorem dispatch_join (st : Server) (i : Nat) (hdr : pkt_hdr_t) (payload : Option (List Nat))
    (h : hdr.type = PKT_JOIN) :
    dispatch st i hdr payload =
      (Flow.next, syscast
        { st with
          clients := Function.update st.clients i
            { st.clients i with room_id := toInt32 hdr.room_id, name := memcpy32 hdr.sender } }
        hdr.room_id (fmt_joined (memcpy32 hdr.sender) hdr.room_id)) := by
  unfold dispatch
  dsimp only
  rw [if_pos h]

/-- The name a `NICK` packet with payload `p` sets: at most 32 bytes of
`p`, then zero bytes up to 32. -/
theorem dispatch_nick (st : Server) (i : Nat) (hdr : pkt_hdr_t) (p : List Nat)
    (h : hdr.type = PKT_NICK) (hp : p.length = hdr.length) :
    dispatch st i hdr (payload_ptr p) =
      (Flow.next, syscast
        { st with
          clients := Function.update st.clients i
            { st.clients i with
              name := p.take (min p.length 32) ++ List.replicate (32 - min p.length 32) 0 } }
        (toUInt32 (st.clients i).room_id)
        (fmt_nick (memcpy32 (st.clients i).name)
          (p.take (min p.length 32) ++ List.replicate (32 - min p.length 32) 0))) := by
  unfold dispatch
  dsimp only
  have h1 : ¬ hdr.type = PKT_JOIN := by rw [h]; decide
  rw [if_neg h1, if_pos h]
  unfold payload_ptr
  by_cases h0 : p.length = 0
  · have : p = [] := List.length_eq_zero.mp h0
    subst this
    simp
  · simp only [h0, if_false, ← hp, ne_eq, not_false_eq_true, if_true]
    by_cases h32 : p.length < 32
    · simp only [h32, if_true, Nat.min_eq_left (Nat.le_of_lt h32)]
    · simp only [h32, if_false, Nat.min_eq_right (Nat.le_of_not_lt h32)]

theorem dispatch_leave (st : Server) (i : Nat) (hdr : pkt_hdr_t) (payload : Option (List Nat))
    (h : hdr.type = PKT_LEAVE) :
    dispatch st i hdr payload = (Flow.stop, remove_client st i) := by
  unfold dispatch
  dsimp only
  have h1 : ¬ hdr.type = PKT_JOIN := by rw [h]; decide
  have h2 : ¬ hdr.type = PKT_NICK := by rw [h]; decide
  have h3 : ¬ hdr.type = PKT_MSG := by rw [h]; decide
  rw [if_neg h1, if_neg h2, if_neg h3, if_pos h]

theorem dispatch_ping (st : Server) (i : Nat) (hdr : pkt_hdr_t) (payload : Option (List Nat))
    (h : hdr.type = PKT_PING) :
    dispatch st i hdr payload =
      (Flow.next, { st with w := (send_packet st.w (st.clients i).sock PKT_PONG
        (some (server_lit st.w)) (toUInt32 (st.clients i).room_id) none 0).2 }) := by
  unfold dispatch
  dsimp only
  have h1 : ¬ hdr.type = PKT_JOIN := by rw [h]; decide
  have h2 : ¬ hdr.type = PKT_NICK := by rw [h]; decide
  have h3 : ¬ hdr.type = PKT_MSG := by rw [h]; decide
  have h4 : ¬ hdr.type = PKT_LEAVE := by rw [h]; decide
  rw [if_neg h1, if_neg h2, if_neg h3, if_neg h4, if_pos h]

theorem dispatch_other (st : Server) (i : Nat) (hdr : pkt_hdr_t) (payload : Option (List Nat))
    (h1 : hdr.type ≠ PKT_JOIN) (h2 : hdr.type ≠ PKT_NICK) (h3 : hdr.type ≠ PKT_MSG)
    (h4 : hdr.type ≠ PKT_LEAVE) (h5 : hdr.type ≠ PKT_PING) :
    dispatch st i hdr payload = (Flow.next, st) := by
  unfold dispatch
  dsimp only
  rw [if_neg h1, if_neg h2, if_neg h3, if_neg h4, if_neg h5]

theorem dispatch_nick_some (st : Server) (i : Nat) (hdr : pkt_hdr_t)
    (payload : Option (List Nat)) (h : hdr.type = PKT_NICK) :
    ∃ nm, dispatch st i hdr payload =
      (Flow.next, syscast
        { st with
          clients := Function.update st.clients i
            { active := (st.clients i).active, sock := (st.clients i).sock,
              room_id := (st.clients i).room_id, name := nm } }
        (toUInt32 (st.clients i).room_id) (fmt_nick (memcpy32 (st.clients i).name) nm)) := by
  unfold dispatch
  dsimp only
  have h1 : ¬ hdr.type = PKT_JOIN := by rw [h]; decide
  rw [if_neg h1, if_pos h]
  exact ⟨_, rfl⟩

theorem dispatch_frame (st : Server) (i : Nat) (hdr : pkt_hdr_t) (payload : Option (List Nat))
    (j : Nat) :
    ((dispatch st i hdr payload).2.clients j).sock = (st.clients j).sock ∧
    (((dispatch st i hdr payload).2.clients j).active ≠ 0 → (st.clients j).active ≠ 0) ∧
    ((j ≠ i ∨ (hdr.type ≠ PKT_JOIN ∧ hdr.type ≠ PKT_NICK)) →
      SlotKept (st.clients j) ((dispatch st i hdr payload).2.clients j)) ∧
    (dispatch st i hdr payload).2.threads = st.threads := by
  have key : ∀ (r : Int) (nm : List Nat) (c1 : client_t) (room : Nat) (text : List Nat),
      c1 = { active := (st.clients i).active, sock := (st.clients i).sock, room_id := r,
             name := nm } →
      ((syscast { st with clients := Function.update st.clients i c1 } room text).clients j).sock =
        (st.clients j).sock ∧
      (((syscast { st with clients := Function.update st.clients i c1 } room text).clients j).active
        ≠ 0 → (st.clients j).active ≠ 0) ∧
      (j ≠ i → SlotKept (st.clients j)
        ((syscast { st with clients := Function.update st.clients i c1 } room text).clients j)) ∧
      (syscast { st with clients := Function.update st.clients i c1 } room text).threads =
        st.threads := by
    intro r nm c1 room text hc
    have hs : c1.sock = (st.clients i).sock := by rw [hc]
    have ha : c1.active = (st.clients i).active := by rw [hc]
    have hk := syscast_kept { st with clients := Function.update st.clients i c1 } room text j
    have ht := (syscast_frame { st with clients := Function.update st.clients i c1 } room
      text).threads
    by_cases hj : j = i
    · subst hj
      simp only [Function.update_same] at hk
      exact ⟨by rw [hk.sock, hs], fun h => by rw [← ha]; exact hk.active h,
        fun h => absurd rfl h, ht⟩
    · simp only [Function.update_noteq hj] at hk
      exact ⟨hk.sock, hk.active, fun _ => hk, ht⟩
  by_cases h1 : hdr.type = PKT_JOIN
  · rw [dispatch_join st i hdr payload h1]
    obtain ⟨a, b, c, d⟩ := key (toInt32 hdr.room_id) (memcpy32 hdr.sender) _ hdr.room_id
      (fmt_joined (memcpy32 hdr.sender) hdr.room_id) rfl
    exact ⟨a, b, fun h => c (h.resolve_right (fun h' => h'.1 h1)), d⟩
  · by_cases h2 : hdr.type = PKT_NICK
    · obtain ⟨nm, e⟩ := dispatch_nick_some st i hdr payload h2
      rw [e]
      obtain ⟨a, b, c, d⟩ := key (st.clients i).room_id nm _ (toUInt32 (st.clients i).room_id)
        (fmt_nick (memcpy32 (st.clients i).name) nm) rfl
      exact ⟨a, b, fun h => c (h.resolve_right (fun h' => h'.2 h2)), d⟩
    · by_cases h3 : hdr.type = PKT_MSG
      · rw [dispatch_msg st i hdr payload h3]
        have hk := broadcast_kept st (toUInt32 (st.clients i).room_id) PKT_MSG
          (some (st.clients i).name) payload hdr.length j
        exact ⟨hk.sock, hk.active, fun _ => hk, (broadcast_frame _ _ _ _ _ _).threads⟩
      · by_cases h4 : hdr.type = PKT_LEAVE
        · rw [dispatch_leave st i hdr payload h4]
          obtain ⟨hk, ht⟩ := remove_client_kept st i j
          exact ⟨hk.sock, hk.active, fun _ => hk, ht⟩
        · by_cases h5 : hdr.type = PKT_PING
          · rw [dispatch_ping st i hdr payload h5]
            exact ⟨rfl, fun h => h, fun _ => Or.inl rfl, rfl⟩
          · rw [dispatch_other st i hdr payload h1 h2 h3 h4 h5]
            exact ⟨rfl, fun h => h, fun _ => Or.inl rfl, rfl⟩

/-- One loop pass of a session never changes a descriptor in the table
and never activates a slot; the slots of the other sessions keep their
room and name. -/
theorem body_frame (st : Server) (i j : Nat) :
    (((client_thread_body st i).2).clients j).sock = (st.clients j).sock ∧
    ((((client_thread_body st i).2).clients j).active ≠ 0 → (st.clients j).active ≠ 0) ∧
    (j ≠ i → SlotKept (st.clients j) (((client_thread_body st i).2).clients j)) ∧
    ((client_thread_body st i).2).threads = st.threads := by
  unfold client_thread_body
  dsimp only
  split
  · obtain ⟨hk, ht⟩ := remove_client_kept
      { st with w := (recv_packet st.w (st.clients i).sock).2.2.2 } i j
    exact ⟨hk.sock, hk.active, fun _ => hk, ht⟩
  · split
    · obtain ⟨a, b, c, d⟩ := dispatch_frame
        { st with w := (recv_packet st.w (st.clients i).sock).2.2.2 } i _ 
        (recv_packet st.w (st.clients i).sock).2.2.1 j
      exact ⟨a, b, fun h => c (Or.inl h), d⟩
    · exact ⟨rfl, fun h => h, fun _ => Or.inl rfl, rfl⟩

theorem DistinctSocks.mono {cs cs' : Nat → client_t} (hd : DistinctSocks cs)
    (h : ∀ j, (cs' j).sock = (cs j).sock ∧ ((cs' j).active ≠ 0 → (cs j).active ≠ 0)) :
    DistinctSocks cs' := by
  intro a b ha hb haa hab e
  rw [(h a).1, (h b).1] at e
  exact hd a b ha hb ((h a).2 haa) ((h b).2 hab) e

/-- Distinct descriptors are kept by a loop pass of any session. -/
theorem body_distinct (st : Server) (i : Nat) (hd : DistinctSocks st.clients) :
    DistinctSocks (client_thread_body st i).2.clients :=
  hd.mono (fun j => ⟨(body_frame st i j).1, (body_frame st i j).2.1⟩)

theorem scene_start_distinct : DistinctSocks scene_start.clients := by
  intro a b _ _ ha hb e
  simp only [scene_start] at ha hb e
  split_ifs at ha hb e <;> simp_all

theorem scene_joined_distinct : DistinctSocks scene_joined.clients :=
  body_distinct _ 1 (body_distinct _ 0 scene_start_distinct)

/-- C4 (MSG relay content): the session of slot `i`, whose room is `R`
and name `N`, handles an arriving `MSG` packet with payload `p` of length
`n = hdr.length`; active slots hold distinct descriptors.  Then what the
broadcast puts on the descriptor of each active slot of room `R` is one
packet with ver 1, type `MSG`, length `n`, room_id `R`, the 32 name bytes
of `N` as sender (not the sender of the incoming packet) and payload `p`
(cut short only if the send on that descriptor fails), and it puts nothing
on any other descriptor. -/
theorem msg_relay_content (st : Server) (i : Nat) (hdr : pkt_hdr_t) (p rest : List Nat)
    (R : Nat) (N : List Nat)
    (harr : Arrives st i hdr p rest) (hmsg : hdr.type = PKT_MSG)
    (hR : toUInt32 (st.clients i).room_id = R) (hN : (st.clients i).name = N)
    (hd : DistinctSocks st.clients) :
    (∀ j, j < MAX_CLIENTS → (st.clients j).active ≠ 0 → toUInt32 (st.clients j).room_id = R →
      ∃ seq ts written,
        (client_thread_body st i).2.w.out (st.clients j).sock =
          st.w.out (st.clients j).sock ++ written ∧
        written <+: wire 1 PKT_MSG hdr.length seq ts R (memcpy32 N) p ∧
        ((send_packet st.w (st.clients j).sock PKT_MSG (some N) R (some p) p.length).1 = 0 →
          written = wire 1 PKT_MSG hdr.length seq ts R (memcpy32 N) p)) ∧
    (∀ s, (∀ j, j < MAX_CLIENTS → (st.clients j).active ≠ 0 →
        toUInt32 (st.clients j).room_id = R → (st.clients j).sock ≠ s) →
      (client_thread_body st i).2.w.out s = st.w.out s) := by
  obtain ⟨evs, _, e⟩ := body_msg st i hdr p rest harr hmsg
  rw [e, hR, hN]
  have hd1 : DistinctSocks (after_recv st i evs).clients := hd
  refine ⟨?_, ?_⟩
  · intro j hj ha hr
    obtain ⟨seq, ts, written, e1, e2, e3, _⟩ := broadcast_recipient (after_recv st i evs) R
      PKT_MSG (some N) (payload_ptr p) p.length hd1 j hj ⟨ha, hr⟩
    rw [payload_bytes_ptr, harr.payload] at e2 e3
    refine ⟨seq, ts, written, e1, e2, ?_⟩
    intro h
    apply (e3 _).1
    rw [send_packet_code_eq] at h ⊢
    rw [← harr.payload, send_packet_code_ptr]
    exact h
  · intro s hs
    exact broadcast_nonrecipient (after_recv st i evs) R PKT_MSG (some N) (payload_ptr p)
      p.length s (fun j hj hr => hs j hj hr.1 hr.2)

/-- Facts about `scene_joined`, by evaluation. -/
theorem scene_joined_facts :
    (scene_joined.clients 0).name = alice32 ∧ (scene_joined.clients 1).name = bob32 ∧
    toUInt32 (scene_joined.clients 0).room_id = 1 ∧
    toUInt32 (scene_joined.clients 1).room_id = 1 ∧
    (scene_joined.clients 0).sock = 4 ∧ (scene_joined.clients 1).sock = 5 ∧
    (scene_joined.clients 1).active ≠ 0 ∧ scene_joined.w.script 5 = [] ∧
    scene_joined.w.malloc_ok 2 = true ∧
    bytesOf (scene_joined.w.inp 4) =
      wire 1 PKT_MSG 2 2 1700000000500 1 alice32 [104, 105] ++ [] := by
  decide!

theorem msg_relay_content_witness :
    (scene_joined.clients 0).name = alice32 ∧ (scene_joined.clients 1).name = bob32 ∧
    toUInt32 (scene_joined.clients 0).room_id = 1 ∧
    toUInt32 (scene_joined.clients 1).room_id = 1 ∧ (scene_joined.clients 1).sock = 5 ∧
    ∃ seq ts, (client_thread_body scene_joined 0).2.w.out 5 =
      scene_joined.w.out 5 ++ wire 1 PKT_MSG 2 seq ts 1 alice32 [104, 105] := by
  obtain ⟨hA, hB, hR0, hR1, hS0, hS, hact, hscr, hmal, hst⟩ := scene_joined_facts
  have harr : Arrives scene_joined 0 hi_hdr [104, 105] [] :=
    { stream := by rw [hS0]; exact hst
      ver := by decide, type := by decide, length := by decide,
      seq := by decide, ts_ms := by decide, room_id := by decide, sender := by decide,
      payload := by decide, malloc := fun _ => hmal }
  have h := (msg_relay_content scene_joined 0 hi_hdr [104, 105] [] 1 alice32 harr rfl hR0 hA
    scene_joined_distinct).1 1 (by decide) hact hR1
  obtain ⟨seq, ts, written, e1, _, e3⟩ := h
  rw [hS] at e1 e3
  have hok := e3 (send_packet_ok_of_script_nil _ _ _ _ _ _ _ hscr)
  rw [hok] at e1
  exact ⟨hA, hB, hR0, hR1, hS, seq, ts, e1⟩

/-- Self-healing on a returned error: in a broadcast to `room`, with
active slots on distinct descriptors, `send_packet` to the recipient slot
`k` returns -1 and the sends to the other recipients succeed.  Then slot
`k` is inactive afterwards and its descriptor closed; every other
recipient has received the whole packet of this broadcast; no field of
any other slot has changed, nor the descriptor, room or name of slot `k`;
and a later broadcast, to whatever room, puts nothing on the descriptor
of slot `k`. -/
theorem broadcast_self_healing (st : Server) (room type : Nat)
    (sender payload : Option (List Nat)) (len : Nat) (k : Nat)
    (hd : DistinctSocks st.clients) (hk : k < MAX_CLIENTS) (hrk : Recipient st.clients room k)
    (hfail : (send_packet st.w (st.clients k).sock type sender room payload len).1 < 0)
    (hok : ∀ j, j < MAX_CLIENTS → j ≠ k → Recipient st.clients room j →
      (send_packet st.w (st.clients j).sock type sender room payload len).1 = 0) :
    ((broadcast st room type sender payload len).clients k).active = 0 ∧
    (st.clients k).sock ∈ (broadcast st room type sender payload len).w.closed ∧
    (∀ j, j < MAX_CLIENTS → j ≠ k → Recipient st.clients room j →
      ∃ seq ts, (broadcast st room type sender payload len).w.out (st.clients j).sock =
        st.w.out (st.clients j).sock ++
          wire 1 type len seq ts room (sender_bytes sender) (payload_bytes payload len)) ∧
    (∀ j, j ≠ k → (broadcast st room type sender payload len).clients j = st.clients j) ∧
    (broadcast st room type sender payload len).clients k = { st.clients k with active := 0 } ∧
    (∀ room2 type2 sender2 payload2 len2,
      (broadcast (broadcast st room type sender payload len) room2 type2 sender2 payload2
        len2).w.out (st.clients k).sock =
      (broadcast st room type sender payload len).w.out (st.clients k).sock) := by
  obtain ⟨_, _, _, _, _, _, hf⟩ := broadcast_recipient st room type sender payload len hd k hk hrk
  obtain ⟨hck, hcl⟩ := hf hfail
  have hothers : ∀ j, j ≠ k →
      (broadcast st room type sender payload len).clients j = st.clients j := by
    intro j hjk
    by_cases hr : Recipient st.clients room j
    · rcases (broadcast_frame st room type sender payload len).clients j with h | ⟨hj, _, _⟩
      · exact h
      · obtain ⟨_, _, _, _, _, e3, _⟩ :=
          broadcast_recipient st room type sender payload len hd j hj hr
        exact (e3 (hok j hj hjk hr)).2
    · exact (broadcast_inv st room type sender payload len hd).skipped j hr
  refine ⟨by rw [hck], hcl, ?_, hothers, hck, ?_⟩
  · intro j hj hjk hr
    obtain ⟨seq, ts, written, e1, _, e3, _⟩ :=
      broadcast_recipient st room type sender payload len hd j hj hr
    rw [(e3 (hok j hj hjk hr)).1] at e1
    exact ⟨seq, ts, e1⟩
  · intro room2 type2 sender2 payload2 len2
    apply broadcast_nonrecipient
    intro j hj hr e
    by_cases hjk : j = k
    · subst hjk
      have := hr.1
      rw [hck] at this
      exact this rfl
    · have ha : (st.clients j).active ≠ 0 := by
        have := hr.1
        rw [hothers j hjk] at this
        exact this
      rw [hothers j hjk] at e
      exact hjk (hd j k hj hk ha hrk.1 e)

theorem broadcast_self_healing_witness :
    DistinctSocks lobby_broken.clients ∧ Recipient lobby_broken.clients 1 1 ∧
    (send_packet lobby_broken.w 5 PKT_SYS none 1 (some [33]) 1).1 < 0 ∧
    ((broadcast lobby_broken 1 PKT_SYS none (some [33]) 1).clients 1).active = 0 ∧
    (∃ seq ts, (broadcast lobby_broken 1 PKT_SYS none (some [33]) 1).w.out 4 =
      lobby_broken.w.out 4 ++ wire 1 PKT_SYS 1 seq ts 1 (List.replicate 32 0) [33]) := by
  have hd : DistinctSocks lobby_broken.clients := lobby_distinct
  have hr : Recipient lobby_broken.clients 1 1 := by decide
  have hfail : (send_packet lobby_broken.w 5 PKT_SYS none 1 (some [33]) 1).1 < 0 := by decide
  have hok : ∀ j, j < MAX_CLIENTS → j ≠ 1 → Recipient lobby_broken.clients 1 j →
      (send_packet lobby_broken.w (lobby_broken.clients j).sock PKT_SYS none 1 (some [33]) 1).1
        = 0 := by
    intro j _ hj1 hrj
    have hj0 : j = 0 := by
      have h1 := hrj.1
      have h2 := hrj.2
      simp only [lobby_broken, lobby] at h1 h2
      split_ifs at h1 h2 <;>
        first
        | assumption
        | exact absurd h2 (by decide)
    subst hj0
    decide
  have h := broadcast_self_healing lobby_broken 1 PKT_SYS none (some [33]) 1 1 hd (by decide)
    hr hfail hok
  exact ⟨hd, hr, hfail, h.1, h.2.2.1 0 (by decide) (by decide) (by decide)⟩

/-! ## Broadcast and `SIGPIPE` -/

theorem broadcast_body_sig_none (room type : Nat) (sender payload : Option (List Nat))
    (len : Nat) (st : Server) (i : Nat) :
    broadcast_body_sig (fun _ => false) room type sender payload len (Proc.running st) i =
      Proc.running (broadcast_body room type sender payload len st i) := by
  unfold broadcast_body_sig broadcast_body send_packet_sig
  by_cases h1 : (st.clients i).active = 0
  · simp only [h1, if_true]
  · by_cases h2 : toUInt32 (st.clients i).room_id = room
    · by_cases h3 : (send_packet st.w (st.clients i).sock type sender room payload len).1 < 0
      · simp [h1, h2, h3]
      · simp [h1, h2, h3]
    · simp [h1, h2]

/-- Without a reset connection the process runs `broadcast` to its end. -/
theorem broadcast_sig_none (st : Server) (room type : Nat) (sender payload : Option (List Nat))
    (len : Nat) :
    broadcast_sig (fun _ => false) st room type sender payload len =
      Proc.running (broadcast st room type sender payload len) := by
  unfold broadcast_sig broadcast
  generalize List.range MAX_CLIENTS = l
  induction l generalizing st with
  | nil => rfl
  | cons i l ih =>
    simp only [List.foldl_cons, broadcast_body_sig_none]
    exact ih _

/-- Nothing runs in a terminated process. -/
theorem broadcast_sig_killed (pipe : Int → Bool) (room type : Nat)
    (sender payload : Option (List Nat)) (len : Nat) (st : Server) (l : List Nat) :
    l.foldl (broadcast_body_sig pipe room type sender payload len) (Proc.killed st) =
      Proc.killed st := by
  induction l with
  | nil => rfl
  | cons i l ih => exact ih

/-- The loop of `broadcast` passes over the slots that are no recipients. -/
theorem broadcast_sig_skip (pipe : Int → Bool) (room type : Nat)
    (sender payload : Option (List Nat)) (len : Nat) (st : Server) (k n : Nat) (hn : n ≤ k)
    (hfirst : ∀ j, j < k → ¬ Recipient st.clients room j) :
    (List.range n).foldl (broadcast_body_sig pipe room type sender payload len)
      (Proc.running st) = Proc.running st := by
  induction n with
  | zero => rfl
  | succ n ih =>
    rw [List.range_succ, List.foldl_append, ih (by omega)]
    have h := hfirst n (by omega)
    unfold Recipient at h
    simp only [List.foldl_cons, List.foldl_nil, broadcast_body_sig]
    by_cases h1 : (st.clients n).active = 0
    · simp [h1]
    · have h2 : toUInt32 (st.clients n).room_id ≠ room := fun e => h ⟨h1, e⟩
      simp [h1, h2]

/-- C5 (self-healing broadcast, defect): when the first recipient slot of a
broadcast, slot `k`, is on a descriptor whose peer has reset the
connection, the `send` to it fails with `EPIPE` and raises `SIGPIPE`, and
the process is terminated inside `broadcast`: no slot is released (the
table is as before, slot `k` still active), no descriptor is closed, and
no descriptor has received anything, so the other recipients are not
served.  The error branch of `broadcast`, which releases the slot of a
failed send, is not reached. -/
theorem broadcast_sigpipe_kills (pipe : Int → Bool) (st : Server) (room type : Nat)
    (sender payload : Option (List Nat)) (len : Nat) (k : Nat)
    (hk : k < MAX_CLIENTS) (hrk : Recipient st.clients room k)
    (hfirst : ∀ j, j < k → ¬ Recipient st.clients room j)
    (hpipe : pipe (st.clients k).sock = true) :
    (broadcast_sig pipe st room type sender payload len).alive = false ∧
    ((broadcast_sig pipe st room type sender payload len).state.clients k).active ≠ 0 ∧
    (∀ j, (broadcast_sig pipe st room type sender payload len).state.clients j = st.clients j) ∧
    (broadcast_sig pipe st room type sender payload len).state.w.closed = st.w.closed ∧
    (∀ s, (broadcast_sig pipe st room type sender payload len).state.w.out s = st.w.out s) := by
  have e : broadcast_sig pipe st room type sender payload len =
      Proc.killed { st with w := (now_ms (fetch_and_add_g_seq st.w).2).2 } := by
    unfold broadcast_sig
    have hsplit : List.range MAX_CLIENTS =
        List.range (k + 1) ++ List.range' (k + 1) (MAX_CLIENTS - (k + 1)) := by
      have := List.range_add (k + 1) (MAX_CLIENTS - (k + 1))
      rw [show k + 1 + (MAX_CLIENTS - (k + 1)) = MAX_CLIENTS by omega] at this
      rw [this, List.range'_eq_map_range]
    rw [hsplit, List.foldl_append, List.range_succ, List.foldl_append,
      broadcast_sig_skip pipe room type sender payload len st k k (Nat.le_refl k) hfirst]
    have hstep : [k].foldl (broadcast_body_sig pipe room type sender payload len)
        (Proc.running st) =
        Proc.killed { st with w := (now_ms (fetch_and_add_g_seq st.w).2).2 } := by
      simp only [List.foldl_cons, List.foldl_nil, broadcast_body_sig, send_packet_sig]
      simp [hrk.1, hrk.2, hpipe]
    rw [hstep, broadcast_sig_killed]
  rw [e]
  exact ⟨rfl, hrk.1, fun _ => rfl, rfl, fun _ => rfl⟩

theorem broadcast_sigpipe_kills_witness :
    Recipient lobby.clients 1 0 ∧ Recipient lobby.clients 1 1 ∧
    (broadcast_sig (fun s => decide (s = 4)) lobby 1 PKT_SYS none (some [33]) 1).alive = false ∧
    ((broadcast_sig (fun s => decide (s = 4)) lobby 1 PKT_SYS none (some [33]) 1).state.clients
      0).active ≠ 0 ∧
    (broadcast_sig (fun s => decide (s = 4)) lobby 1 PKT_SYS none (some [33]) 1).state.w.closed
      = [] ∧
    (broadcast_sig (fun s => decide (s = 4)) lobby 1 PKT_SYS none (some [33]) 1).state.w.out 5
      = [] := by
  have h := broadcast_sigpipe_kills (fun s => decide (s = 4)) lobby 1 PKT_SYS none (some [33]) 1 0
    (by decide) (by decide) (fun j hj => absurd hj (Nat.not_lt_zero j)) rfl
  exact ⟨by decide, by decide, h.1, h.2.1, h.2.2.2.1, h.2.2.2.2 5⟩

/-! ## JOIN, unknown types, accept -/

theorem send_packet_code_nul (evs : List SendEv) (text : List Nat) :
    send_packet_code evs (some (text ++ [0])) text.length =
      send_packet_code evs (some text) text.length := by
  unfold send_packet_code
  dsimp only
  rw [List.take_append_of_le_length (Nat.le_refl _)]

/-- What a `syscast` of a text shorter than 512 bytes does to each
descriptor, when active slots hold distinct descriptors. -/
theorem syscast_delivery (st : Server) (room : Nat) (text : List Nat) (h : text.length < 512)
    (hd : DistinctSocks st.clients) :
    (∀ j, j < MAX_CLIENTS → Recipient st.clients room j →
      ∃ seq ts written,
        (syscast st room text).w.out (st.clients j).sock =
          st.w.out (st.clients j).sock ++ written ∧
        written <+: wire 1 PKT_SYS text.length seq ts room (server_lit st.w) text ∧
        ((send_packet st.w (st.clients j).sock PKT_SYS (some (server_lit st.w)) room (some text)
            text.length).1 = 0 →
          written = wire 1 PKT_SYS text.length seq ts room (server_lit st.w) text)) ∧
    (∀ s, (∀ j, j < MAX_CLIENTS → Recipient st.clients room j → (st.clients j).sock ≠ s) →
      (syscast st room text).w.out s = st.w.out s) := by
  obtain ⟨e, hs, hp⟩ := syscast_eq st room text h
  rw [e]
  refine ⟨?_, ?_⟩
  · intro j hj hr
    obtain ⟨seq, ts, written, e1, e2, e3, _⟩ := broadcast_recipient st room PKT_SYS
      (some (server_lit st.w)) (some (text ++ [0])) text.length hd j hj hr
    rw [hs, hp] at e2 e3
    refine ⟨seq, ts, written, e1, e2, fun hok => (e3 ?_).1⟩
    rw [send_packet_code_eq] at hok ⊢
    rw [send_packet_code_nul]
    exact hok
  · intro s hs'
    exact broadcast_nonrecipient st room PKT_SYS _ _ _ s hs'

theorem find_range (P : Nat → Bool) (n : Nat) :
    ((List.range n).find? P = none ∧ ∀ j, j < n → P j = false) ∨
    ∃ k, (List.range n).find? P = some k ∧ k < n ∧ P k = true ∧ ∀ j, j < k → P j = false := by
  induction n with
  | zero => exact Or.inl ⟨rfl, fun j hj => absurd hj (Nat.not_lt_zero j)⟩
  | succ n ih =>
    rw [List.range_succ, List.find?_append]
    rcases ih with ⟨h1, h2⟩ | ⟨k, h1, h2, h3, h4⟩
    · rw [h1]
      by_cases hp : P n = true
      · right
        exact ⟨n, by simp [hp], Nat.lt_succ_self n, hp, h2⟩
      · left
        refine ⟨by simp [hp], ?_⟩
        intro j hj
        by_cases hjn : j = n
        · subst hjn; simpa using hp
        · exact h2 j (by omega)
    · right
      rw [h1]
      exact ⟨k, rfl, by omega, h3, h4⟩

theorem send_packet_ret_congr (w w' : World) (s : Int) (type type' : Nat)
    (sender sender' : Option (List Nat)) (room room' : Nat) (payload : Option (List Nat))
    (len : Nat) (h : w.script s = w'.script s) :
    (send_packet w s type sender room payload len).1 =
      (send_packet w' s type' sender' room' payload len).1 := by
  rw [send_packet_code_eq, send_packet_code_eq, h]

/-- C10 (unknown type): the connection of slot `i` delivers a well-formed
packet whose type is none of 1..7.  Then `recv_packet` returns 1 with that
header and payload, and the loop pass of the session changes no slot of
the table, sends nothing on any descriptor (outputs, send scripts and the
sequence counter are as before), closes nothing, starts nothing, and ends
at the loop test with the rest of the stream still to be read. -/
theorem unknown_type_ignored (st : Server) (i : Nat) (hdr : pkt_hdr_t) (p rest : List Nat)
    (harr : Arrives st i hdr p rest) (htype : hdr.type < 1 ∨ 7 < hdr.type) :
    (recv_packet st.w (st.clients i).sock).1 = 1 ∧
    (recv_packet st.w (st.clients i).sock).2.1 = some hdr ∧
    (recv_packet st.w (st.clients i).sock).2.2.1 = (if p.length = 0 then none else some p) ∧
    (client_thread_body st i).1 = Flow.next ∧
    (client_thread_body st i).2.clients = st.clients ∧
    (client_thread_body st i).2.w.out = st.w.out ∧
    (client_thread_body st i).2.w.script = st.w.script ∧
    (client_thread_body st i).2.w.g_seq = st.w.g_seq ∧
    (client_thread_body st i).2.w.closed = st.w.closed ∧
    (client_thread_body st i).2.threads = st.threads ∧
    bytesOf ((client_thread_body st i).2.w.inp (st.clients i).sock) = rest := by
  obtain ⟨evs, b, r, e⟩ := body_on_packet st i hdr p rest harr
  have h1 : hdr.type ≠ PKT_JOIN := by unfold PKT_JOIN; omega
  have h2 : hdr.type ≠ PKT_NICK := by unfold PKT_NICK; omega
  have h3 : hdr.type ≠ PKT_MSG := by unfold PKT_MSG; omega
  have h4 : hdr.type ≠ PKT_LEAVE := by unfold PKT_LEAVE; omega
  have h5 : hdr.type ≠ PKT_PING := by unfold PKT_PING; omega
  rw [e, dispatch_other _ i hdr _ h1 h2 h3 h4 h5, r]
  refine ⟨rfl, rfl, rfl, rfl, rfl, rfl, rfl, rfl, rfl, rfl, ?_⟩
  simp only [after_recv, Function.update_same]
  exact b

theorem unknown_type_ignored_witness :
    Arrives lobby_odd 0 odd_hdr [7] [] ∧
    (recv_packet lobby_odd.w 4).1 = 1 ∧
    (client_thread_body lobby_odd 0).1 = Flow.next ∧
    (client_thread_body lobby_odd 0).2.clients = lobby_odd.clients ∧
    (client_thread_body lobby_odd 0).2.w.out = lobby_odd.w.out := by
  have harr : Arrives lobby_odd 0 odd_hdr [7] [] :=
    { stream := by decide, ver := by decide, type := by decide, length := by decide,
      seq := by decide, ts_ms := by decide, room_id := by decide, sender := by decide,
      payload := by decide, malloc := fun _ => rfl }
  have h := unknown_type_ignored lobby_odd 0 odd_hdr [7] [] harr (Or.inr (by decide))
  exact ⟨harr, h.1, h.2.2.2.1, h.2.2.2.2.1, h.2.2.2.2.2.1⟩

theorem find_free_spec (cs : Nat → client_t) :
    (find_free cs = none ∧ ∀ j, j < MAX_CLIENTS → (cs j).active ≠ 0) ∨
    ∃ k, find_free cs = some k ∧ k < MAX_CLIENTS ∧ (cs k).active = 0 ∧
      ∀ j, j < k → (cs j).active ≠ 0 := by
  unfold find_free
  rcases find_range (fun i => decide ((cs i).active = 0)) MAX_CLIENTS with
    ⟨h1, h2⟩ | ⟨k, h1, h2, h3, h4⟩
  · exact Or.inl ⟨h1, fun j hj => by simpa using h2 j hj⟩
  · exact Or.inr ⟨k, h1, h2, by simpa using h3, fun j hj => by simpa using h4 j hj⟩

/-- C8 (capacity boundary): `accept` has returned the descriptor `cs`.
If all `MAX_CLIENTS` slots are active, the slot search finds nothing, `cs`
is closed, no session is started, no slot and nothing else of the world is
changed, and the loop goes on.  If some slot is inactive and the thread
can be created, the search finds the lowest inactive index `k`; slot `k`
becomes active on `cs` with room_id 1 and an all-zero name, its session is
started, and no other slot is changed. -/
theorem accept_capacity (st : Server) (cs : Int) (eintr : Bool) (hcs : 0 ≤ cs) :
    ((∀ j, j < MAX_CLIENTS → (st.clients j).active ≠ 0) →
      ∀ create_ok,
        find_free st.clients = none ∧
        (accept_step st cs eintr create_ok).1 = Flow.next ∧
        (accept_step st cs eintr create_ok).2.w.closed = cs :: st.w.closed ∧
        (accept_step st cs eintr create_ok).2.threads = st.threads ∧
        (accept_step st cs eintr create_ok).2.clients = st.clients ∧
        (accept_step st cs eintr create_ok).2.w.out = st.w.out) ∧
    ((∃ j, j < MAX_CLIENTS ∧ (st.clients j).active = 0) →
      ∃ k, k < MAX_CLIENTS ∧ (st.clients k).active = 0 ∧
        (∀ j, j < k → (st.clients j).active ≠ 0) ∧
        find_free st.clients = some k ∧
        (accept_step st cs eintr true).1 = Flow.next ∧
        (accept_step st cs eintr true).2.clients k =
          { active := 1, sock := cs, room_id := 1, name := List.replicate 32 0 } ∧
        (∀ j, j ≠ k → (accept_step st cs eintr true).2.clients j = st.clients j) ∧
        (accept_step st cs eintr true).2.threads = k :: st.threads ∧
        (accept_step st cs eintr true).2.w.closed = st.w.closed) := by
  have hneg : ¬ cs < 0 := by omega
  constructor
  · intro hfull create_ok
    have hnone : find_free st.clients = none := by
      rcases find_free_spec st.clients with ⟨h, _⟩ | ⟨k, _, hk, h0, _⟩
      · exact h
      · exact absurd h0 (hfull k hk)
    unfold accept_step
    simp only [hneg, if_false, hnone]
    exact ⟨trivial, trivial, trivial, trivial, trivial, trivial⟩
  · rintro ⟨j, hj, hj0⟩
    rcases find_free_spec st.clients with ⟨_, h⟩ | ⟨k, hf, hk, h0, hlow⟩
    · exact absurd hj0 (h j hj)
    · refine ⟨k, hk, h0, hlow, hf, ?_⟩
      unfold accept_step
      simp only [hneg, if_false, hf, if_true, Function.update_same]
      refine ⟨trivial, trivial, ?_, trivial, trivial⟩
      intro j hjk
      simp only [Function.update_noteq hjk]

theorem accept_capacity_witness :
    (∀ j, j < MAX_CLIENTS → (full_house.clients j).active ≠ 0) ∧
    find_free full_house.clients = none ∧
    (accept_step full_house 2000 false true).2.w.closed = [2000] ∧
    (accept_step full_house 2000 false true).2.threads = [] ∧
    (accept_step full_house 2000 false true).2.clients = full_house.clients ∧
    (accept_step lobby 9 false true).2.clients 3 =
      { active := 1, sock := 9, room_id := 1, name := List.replicate 32 0 } ∧
    (accept_step lobby 9 false true).2.threads = [3, 2, 1, 0] := by
  have hfull : ∀ j, j < MAX_CLIENTS → (full_house.clients j).active ≠ 0 := by
    intro j _
    simp [full_house]
  have h := (accept_capacity full_house 2000 false (by decide)).1 hfull true
  obtain ⟨k, _, h0, hlow, _, _, hc, _, ht, _⟩ :=
    (accept_capacity lobby 9 false (by decide)).2 ⟨3, by decide, by decide⟩
  have hk3 : k = 3 := by
    rcases Nat.lt_trichotomy k 3 with hlt | heq | hgt
    · exfalso
      interval_cases k <;> simp [lobby] at h0
    · exact heq
    · exact absurd (by decide) (hlow 3 hgt)
  subst hk3
  exact ⟨hfull, h.1, h.2.2.1, h.2.2.2.1, h.2.2.2.2.1, hc, ht⟩

/-! ## NICK -/

/-- The accept loop changes at most the slot it has found free. -/
theorem accept_step_kept (st : Server) (cs : Int) (eintr create_ok : Bool) (j : Nat)
    (hj : (st.clients j).active ≠ 0) :
    (accept_step st cs eintr create_ok).2.clients j = st.clients j := by
  unfold accept_step
  by_cases hneg : cs < 0
  · simp only [hneg, if_true]
  · simp only [hneg, if_false]
    rcases find_free_spec st.clients with ⟨h, _⟩ | ⟨k, hf, _, h0, _⟩
    · simp only [h]
    · have hjk : j ≠ k := fun e => hj (e ▸ h0)
      simp only [hf]
      cases create_ok
      · simp only [Bool.false_eq_true, if_false, Function.update_noteq hjk]
      · simp only [if_true, Function.update_noteq hjk]

/-- Distinct descriptors are kept by the accept loop when the descriptor
`accept` returns is not the descriptor of an active slot. -/
theorem accept_step_distinct (st : Server) (cs : Int) (eintr create_ok : Bool)
    (hd : DistinctSocks st.clients)
    (hfresh : ∀ j, j < MAX_CLIENTS → (st.clients j).active ≠ 0 → (st.clients j).sock ≠ cs) :
    DistinctSocks (accept_step st cs eintr create_ok).2.clients := by
  unfold accept_step
  by_cases hneg : cs < 0
  · simp only [hneg, if_true]
    exact hd
  · simp only [hneg, if_false]
    rcases find_free_spec st.clients with ⟨h, _⟩ | ⟨k, hf, hk, h0, _⟩
    · simp only [h]
      exact hd
    · simp only [hf]
      cases create_ok
      · simp only [Bool.false_eq_true, if_false]
        intro a b ha hb haa hab e
        have hak : a ≠ k := by
          intro h; subst h
          simp only [Function.update_same] at haa
          exact haa rfl
        have hbk : b ≠ k := by
          intro h; subst h
          simp only [Function.update_same] at hab
          exact hab rfl
        simp only [Function.update_noteq hak, Function.update_noteq hbk] at haa hab e
        exact hd a b ha hb haa hab e
      · simp only [if_true]
        intro a b ha hb haa hab e
        by_cases hak : a = k
        · by_cases hbk : b = k
          · rw [hak, hbk]
          · subst hak
            simp only [Function.update_same, Function.update_noteq hbk] at hab e
            exact absurd e.symm (hfresh b hb hab)
        · by_cases hbk : b = k
          · subst hbk
            simp only [Function.update_same, Function.update_noteq hak] at haa e
            exact absurd e (hfresh a ha haa)
          · simp only [Function.update_noteq hak, Function.update_noteq hbk] at haa hab e
            exact hd a b ha hb haa hab e

theorem body_self_kept (st : Server) (i : Nat)
    (h : ∀ hd, (recv_packet st.w (st.clients i).sock).2.1 = some hd →
      hd.type ≠ PKT_JOIN ∧ hd.type ≠ PKT_NICK) :
    SlotKept (st.clients i) ((client_thread_body st i).2.clients i) := by
  unfold client_thread_body
  dsimp only
  split
  · exact (remove_client_kept { st with w := (recv_packet st.w (st.clients i).sock).2.2.2 } i i).1
  · split
    · rename_i hdr heq
      exact (dispatch_frame { st with w := (recv_packet st.w (st.clients i).sock).2.2.2 } i hdr
        (recv_packet st.w (st.clients i).sock).2.2.1 i).2.2.1 (Or.inr (h hdr heq))
    · exact Or.inl rfl

theorem Later.kept {i : Nat} {st st' : Server} (h : Later i st st') :
    SlotKept (st.clients i) (st'.clients i) ∧
      (DistinctSocks st.clients → DistinctSocks st'.clients) := by
  induction h with
  | refl => exact ⟨Or.inl rfl, fun h => h⟩
  | other j _ hj ih =>
    exact ⟨ih.1.trans ((body_frame _ j i).2.2.1 (fun e => hj e.symm)),
      fun hd => body_distinct _ j (ih.2 hd)⟩
  | self _ hs ih =>
    exact ⟨ih.1.trans (body_self_kept _ _ hs), fun hd => body_distinct _ _ (ih.2 hd)⟩
  | accepted cs eintr create_ok _ hact hfresh ih =>
    exact ⟨ih.1.trans (Or.inl (accept_step_kept _ cs eintr create_ok _ hact)),
      fun hd => accept_step_distinct _ cs eintr create_ok (ih.2 hd) hfresh⟩

theorem body_nick (st : Server) (i : Nat) (hdr : pkt_hdr_t) (p rest : List Nat)
    (harr : Arrives st i hdr p rest) (hnick : hdr.type = PKT_NICK) :
    ∃ evs, bytesOf evs = rest ∧
      client_thread_body st i =
        (Flow.next, syscast
          { after_recv st i evs with
            clients := Function.update st.clients i
              { st.clients i with
                name := p.take (min p.length 32) ++ List.replicate (32 - min p.length 32) 0 } }
          (toUInt32 (st.clients i).room_id)
          (fmt_nick (memcpy32 (st.clients i).name)
            (p.take (min p.length 32) ++ List.replicate (32 - min p.length 32) 0))) := by
  obtain ⟨evs, b, _, e⟩ := body_on_packet st i hdr p rest harr
  refine ⟨evs, b, ?_⟩
  rw [e, dispatch_nick _ i hdr p hnick harr.payload]
  rfl

theorem infix_mid (a b c : List Nat) : b <:+: a ++ (b ++ c) := ⟨a, c, by simp⟩

/-- Zero bytes after a string do not show in what is read up to the first
zero byte. -/
theorem takeWhile_append_zeros (a : List Nat) (k : Nat) :
    (a ++ List.replicate k 0).takeWhile (fun b => b ≠ 0) = a.takeWhile (fun b => b ≠ 0) := by
  induction a with
  | nil =>
    cases k with
    | zero => rfl
    | succ k => simp [List.replicate_succ, List.takeWhile]
  | cons x xs ih =>
    by_cases hx : x = 0
    · simp [List.takeWhile, hx]
    · simp only [List.cons_append, List.takeWhile, hx, ne_eq, not_false_eq_true, decide_True]
      rw [← ih]
      rfl

/-- What `%.*s` with precision 32 prints of a name copied into a 32-byte
field: the bytes of the name before its first zero byte, 32 at most. -/
theorem str32_memcpy32 (a : List Nat) :
    str32 (memcpy32 a) = (a.take 32).takeWhile (fun b => b ≠ 0) := by
  unfold str32 memcpy32
  rw [List.take_take, Nat.min_self, List.take_append_eq_append_take, List.take_replicate]
  by_cases h : a.length ≤ 32
  · rw [takeWhile_append_zeros]
  · have : 32 - a.length = 0 := by omega
    rw [this]
    simp

/-- The rename announcement, byte for byte. -/
theorem fmt_nick_text (a b : List Nat) :
    fmt_nick (memcpy32 a) b =
      [42, 42, 42, 32] ++ (a.take 32).takeWhile (fun c => c ≠ 0) ++
        [32, 105, 115, 32, 110, 111, 119, 32] ++ (b.take 32).takeWhile (fun c => c ≠ 0) ++
        [32, 42, 42, 42] := by
  unfold fmt_nick
  rw [str32_memcpy32]
  rfl

theorem nick_name_length (p : List Nat) :
    (p.take (min p.length 32) ++ List.replicate (32 - min p.length 32) 0).length = 32 := by
  simp only [List.length_append, List.length_take, List.length_replicate]
  omega

/-- C7 (rename propagation): the session of slot `i`, whose room is `R`
and name `O`, handles an arriving `NICK` packet with payload `p`; active
slots hold distinct descriptors.  Afterwards the slot's name is `N'`, the
first min(|p|, 32) bytes of `p` followed by zero bytes up to 32 bytes, and
its room is unchanged; the loop goes on; each active slot of room `R` gets
on its descriptor one `SYS` packet of room `R` whose payload is the text
`T`: the four bytes of `"*** "`, the bytes of `O` before its first zero
byte (32 at most), the eight bytes of `" is now "`, the bytes of `N'`
before its first zero byte, and the four bytes of `" ***"`, so that `T`
cites the old and the new name; no other descriptor gets anything; and in
every later state, reached by loop passes of any sessions and of the
accept loop in which this session handles no further `JOIN` or `NICK`, an
arriving `MSG` of this connection is broadcast to room `R` with `N'` as its
sender field. -/
theorem nick_rename (st : Server) (i : Nat) (hdr : pkt_hdr_t) (p rest : List Nat)
    (R : Nat) (O N' T : List Nat)
    (harr : Arrives st i hdr p rest) (hnick : hdr.type = PKT_NICK)
    (hR : toUInt32 (st.clients i).room_id = R) (hO : (st.clients i).name = O)
    (hN' : N' = p.take (min p.length 32) ++ List.replicate (32 - min p.length 32) 0)
    (hT : T = [42, 42, 42, 32] ++ (O.take 32).takeWhile (fun c => c ≠ 0) ++
      [32, 105, 115, 32, 110, 111, 119, 32] ++ (N'.take 32).takeWhile (fun c => c ≠ 0) ++
      [32, 42, 42, 42])
    (hd : DistinctSocks st.clients) :
    (client_thread_body st i).1 = Flow.next ∧
    ((client_thread_body st i).2.clients i).name = N' ∧
    ((client_thread_body st i).2.clients i).room_id = (st.clients i).room_id ∧
    ((O.take 32).takeWhile (fun c => c ≠ 0) <:+: T ∧
      (N'.take 32).takeWhile (fun c => c ≠ 0) <:+: T) ∧
    (∀ j, j < MAX_CLIENTS → (st.clients j).active ≠ 0 → toUInt32 (st.clients j).room_id = R →
      ∃ seq ts written,
        (client_thread_body st i).2.w.out (st.clients j).sock =
          st.w.out (st.clients j).sock ++ written ∧
        written <+: wire 1 PKT_SYS T.length seq ts R (server_lit st.w) T ∧
        ((send_packet st.w (st.clients j).sock PKT_SYS (some (server_lit st.w)) R
            (some T) T.length).1 = 0 →
          written = wire 1 PKT_SYS T.length seq ts R (server_lit st.w) T)) ∧
    (∀ s, (∀ j, j < MAX_CLIENTS → (st.clients j).active ≠ 0 →
        toUInt32 (st.clients j).room_id = R → (st.clients j).sock ≠ s) →
      (client_thread_body st i).2.w.out s = st.w.out s) ∧
    (∀ st2, Later i (client_thread_body st i).2 st2 →
      ∀ hdr2 q rest2, Arrives st2 i hdr2 q rest2 → hdr2.type = PKT_MSG →
        (∀ j, j < MAX_CLIENTS → (st2.clients j).active ≠ 0 →
          toUInt32 (st2.clients j).room_id = R →
          ∃ seq ts written,
            (client_thread_body st2 i).2.w.out (st2.clients j).sock =
              st2.w.out (st2.clients j).sock ++ written ∧
            written <+: wire 1 PKT_MSG hdr2.length seq ts R N' q ∧
            ((send_packet st2.w (st2.clients j).sock PKT_MSG (some N') R (some q) q.length).1 = 0 →
              written = wire 1 PKT_MSG hdr2.length seq ts R N' q)) ∧
        (∀ s, (∀ j, j < MAX_CLIENTS → (st2.clients j).active ≠ 0 →
            toUInt32 (st2.clients j).room_id = R → (st2.clients j).sock ≠ s) →
          (client_thread_body st2 i).2.w.out s = st2.w.out s)) := by
  have hTe : fmt_nick (memcpy32 O) N' = T := by rw [hT]; exact fmt_nick_text O N'
  have hTl : T.length < 512 := by rw [← hTe]; exact fmt_nick_length _ _
  have hcite : (O.take 32).takeWhile (fun c => c ≠ 0) <:+: T ∧
      (N'.take 32).takeWhile (fun c => c ≠ 0) <:+: T := by
    rw [hT]
    constructor
    · simp only [List.append_assoc]
      exact infix_mid _ _ _
    · have := infix_mid ([42, 42, 42, 32] ++ (O.take 32).takeWhile (fun c => c ≠ 0) ++
        [32, 105, 115, 32, 110, 111, 119, 32]) ((N'.take 32).takeWhile (fun c => c ≠ 0))
        [32, 42, 42, 42]
      simpa only [List.append_assoc] using this
  have hdist' : DistinctSocks (client_thread_body st i).2.clients := body_distinct st i hd
  obtain ⟨evs, _, e⟩ := body_nick st i hdr p rest harr hnick
  rw [← hN', hR, hO, hTe] at e
  have hlen : N'.length = 32 := by rw [hN']; exact nick_name_length p
  generalize hst1 : ({ after_recv st i evs with
      clients := Function.update st.clients i { st.clients i with name := N' } } : Server) = st1
    at e
  have hci : st1.clients i = { st.clients i with name := N' } := by
    subst hst1; simp only [Function.update_same]
  have hcj : ∀ j, j ≠ i → st1.clients j = st.clients j := by
    intro j hj; subst hst1; simp only [Function.update_noteq hj]
  have hsock : ∀ j, (st1.clients j).sock = (st.clients j).sock := by
    intro j
    by_cases hj : j = i
    · subst hj; rw [hci]
    · rw [hcj j hj]
  have hact : ∀ j, (st1.clients j).active = (st.clients j).active := by
    intro j
    by_cases hj : j = i
    · subst hj; rw [hci]
    · rw [hcj j hj]
  have hroom : ∀ j, (st1.clients j).room_id = (st.clients j).room_id := by
    intro j
    by_cases hj : j = i
    · subst hj; rw [hci]
    · rw [hcj j hj]
  have hw : st1.w.out = st.w.out ∧ st1.w.script = st.w.script ∧ st1.w.rodata = st.w.rodata := by
    subst hst1; exact ⟨rfl, rfl, rfl⟩
  have hlit : server_lit st1.w = server_lit st.w := by
    unfold server_lit; rw [hw.2.2]
  have hd1 : DistinctSocks st1.clients :=
    hd.mono (fun j => ⟨hsock j, fun h => by rw [hact j] at h; exact h⟩)
  have hrec : ∀ j, Recipient st1.clients R j ↔
      ((st.clients j).active ≠ 0 ∧ toUInt32 (st.clients j).room_id = R) := by
    intro j; unfold Recipient; rw [hact j, hroom j]
  obtain ⟨del, oth⟩ := syscast_delivery st1 R T hTl hd1
  have hk := syscast_kept st1 R T i
  rw [hci] at hk
  have hname' : ((client_thread_body st i).2.clients i).name = N' := by rw [e]; exact hk.name
  have hroom' : ((client_thread_body st i).2.clients i).room_id = (st.clients i).room_id := by
    rw [e]; exact hk.room_id
  refine ⟨by rw [e], hname', hroom', hcite, ?_, ?_, ?_⟩
  · intro j hj ha hr
    obtain ⟨seq, ts, written, e1, e2, e3⟩ := del j hj ((hrec j).mpr ⟨ha, hr⟩)
    rw [hsock j, hw.1] at e1
    rw [hlit] at e2 e3
    rw [e]
    refine ⟨seq, ts, written, e1, e2, fun hok => e3 ?_⟩
    rw [hsock j, send_packet_ret_congr st1.w st.w _ _ PKT_SYS _ (some (server_lit st.w)) _
      R _ _ (by rw [hw.2.1])]
    exact hok
  · intro s hs
    have := oth s (by
      intro k hk hrk
      obtain ⟨hka, hkr⟩ := (hrec k).mp hrk
      rw [hsock k]
      exact hs k hk hka hkr)
    rw [hw.1] at this
    rw [e]
    exact this
  · intro st2 hlater hdr2 q rest2 harr2 hmsg2
    obtain ⟨hkept, hdist⟩ := hlater.kept
    have hd2 : DistinctSocks st2.clients := hdist hdist'
    have hn2 : (st2.clients i).name = N' := by rw [hkept.name, hname']
    have hr2 : toUInt32 (st2.clients i).room_id = R := by rw [hkept.room_id, hroom', hR]
    obtain ⟨evs2, _, e2⟩ := body_msg st2 i hdr2 q rest2 harr2 hmsg2
    rw [e2, hr2, hn2]
    have hd3 : DistinctSocks (after_recv st2 i evs2).clients := hd2
    have hsb : sender_bytes (some N') = N' := memcpy32_of_length N' hlen
    refine ⟨?_, ?_⟩
    · intro j hj ha hr
      obtain ⟨seq, ts, written, f1, f2, f3, _⟩ := broadcast_recipient (after_recv st2 i evs2) R
        PKT_MSG (some N') (payload_ptr q) q.length hd3 j hj ⟨ha, hr⟩
      rw [payload_bytes_ptr, harr2.payload, hsb] at f2 f3
      refine ⟨seq, ts, written, f1, f2, ?_⟩
      intro h
      apply (f3 _).1
      rw [send_packet_code_eq] at h ⊢
      rw [← harr2.payload, send_packet_code_ptr]
      exact h
    · intro s hs
      exact broadcast_nonrecipient (after_recv st2 i evs2) R PKT_MSG (some N') (payload_ptr q)
        q.length s (fun j hj hr => hs j hj hr.1 hr.2)

/-- Facts about `lobby_nick_msg` after the `NICK`, by evaluation. -/
theorem lobby_nick_facts :
    ((client_thread_body lobby_nick_msg 0).2.clients 0).sock = 4 ∧
    ((client_thread_body lobby_nick_msg 0).2.clients 1).sock = 5 ∧
    ((client_thread_body lobby_nick_msg 0).2.clients 1).active ≠ 0 ∧
    toUInt32 ((client_thread_body lobby_nick_msg 0).2.clients 1).room_id = 1 ∧
    (client_thread_body lobby_nick_msg 0).2.w.script 5 = [] ∧
    (client_thread_body lobby_nick_msg 0).2.w.malloc_ok 2 = true ∧
    bytesOf ((client_thread_body lobby_nick_msg 0).2.w.inp 4) =
      wire 1 PKT_MSG 2 2 1700000000500 1 alice32 [104, 105] ++ [] ∧
    (client_thread_body lobby_nick_msg 0).2.w.out 5 =
      [0, 1, 0, 5, 0, 0, 0, 23, 0, 0, 0, 2, 0, 0, 1, 139, 207, 229, 104, 123, 0, 0, 0, 1,
        115, 101, 114, 118, 101, 114, 0, 0, 0, 0, 0, 0, 0, 0, 0, 0, 0, 0, 0, 0, 0, 0, 0, 0, 0, 0,
        0, 0, 0, 0, 0, 0,
        42, 42, 42, 32, 97, 108, 105, 99, 101, 32, 105, 115, 32, 110, 111, 119, 32, 97, 108,
        32, 42, 42, 42] := by
  decide!

theorem nick_rename_witness :
    Arrives lobby_nick_msg 0 nick_hdr [97, 108] (wire 1 PKT_MSG 2 2 1700000000500 1 alice32 [104, 105]) ∧
    ((client_thread_body lobby_nick_msg 0).2.clients 0).name = al32 ∧
    (∃ seq ts, (client_thread_body lobby_nick_msg 0).2.w.out 5 =
      wire 1 PKT_SYS 23 seq ts 1 ([115, 101, 114, 118, 101, 114] ++ List.replicate 26 0)
        [42, 42, 42, 32, 97, 108, 105, 99, 101, 32, 105, 115, 32, 110, 111, 119, 32, 97, 108,
          32, 42, 42, 42]) ∧
    (client_thread_body lobby_nick_msg 0).2.w.out 5 =
      [0, 1, 0, 5, 0, 0, 0, 23, 0, 0, 0, 2, 0, 0, 1, 139, 207, 229, 104, 123, 0, 0, 0, 1,
        115, 101, 114, 118, 101, 114, 0, 0, 0, 0, 0, 0, 0, 0, 0, 0, 0, 0, 0, 0, 0, 0, 0, 0, 0, 0,
        0, 0, 0, 0, 0, 0,
        42, 42, 42, 32, 97, 108, 105, 99, 101, 32, 105, 115, 32, 110, 111, 119, 32, 97, 108,
        32, 42, 42, 42] ∧
    (∃ seq ts, (client_thread_body (client_thread_body lobby_nick_msg 0).2 0).2.w.out 5 =
      (client_thread_body lobby_nick_msg 0).2.w.out 5 ++
        wire 1 PKT_MSG 2 seq ts 1 al32 [104, 105]) := by
  have harr : Arrives lobby_nick_msg 0 nick_hdr [97, 108]
      (wire 1 PKT_MSG 2 2 1700000000500 1 alice32 [104, 105]) :=
    { stream := by decide, ver := by decide, type := by decide, length := by decide,
      seq := by decide, ts_ms := by decide, room_id := by decide, sender := by decide,
      payload := by decide, malloc := fun _ => rfl }
  have h := nick_rename lobby_nick_msg 0 nick_hdr [97, 108] _ 1 alice32 al32
    [42, 42, 42, 32, 97, 108, 105, 99, 101, 32, 105, 115, 32, 110, 111, 119, 32, 97, 108,
      32, 42, 42, 42] harr rfl (by decide) rfl (by decide) (by decide) lobby_distinct
  obtain ⟨hS0, hS, hact, hR1, hscr, hmal, hst, hout⟩ := lobby_nick_facts
  have harr2 : Arrives (client_thread_body lobby_nick_msg 0).2 0 hi_hdr [104, 105] [] :=
    { stream := by rw [hS0]; exact hst
      ver := by decide, type := by decide, length := by decide,
      seq := by decide, ts_ms := by decide, room_id := by decide, sender := by decide,
      payload := by decide, malloc := fun _ => hmal }
  obtain ⟨seq0, ts0, written0, d1, _, d3⟩ := h.2.2.2.2.1 1 (by decide) (by decide) (by decide)
  have hok0 := d3 (send_packet_ok_of_script_nil _ _ _ _ _ _ _ rfl)
  rw [hok0] at d1
  obtain ⟨seq, ts, written, e1, _, e3⟩ :=
    (h.2.2.2.2.2.2 _ (Later.refl _) hi_hdr [104, 105] [] harr2 rfl).1 1 (by decide) hact hR1
  rw [hS] at e1 e3
  have hok := e3 (send_packet_ok_of_script_nil _ _ _ _ _ _ _ hscr)
  rw [hok] at e1
  exact ⟨harr, h.2.1, ⟨seq0, ts0, d1⟩, hout, seq, ts, e1⟩

end Chat
